import Mathlib

/-!
Shallow embedding of the workspace dependency-graph subsystem of this
repository:

* `GlobalDependencyGraph` (defined in
  `packages/jest-core/src/__tests__/ViteDevServerManager.test.ts`):
  bidirectional module graph, `addProject`, `buildGraph`,
  `findAffectedTests`, `findAffectedFilesInProject`, `invalidateFiles`,
  `resolveCrossProjectDependencies`, `isTestFile`, `convertGlobToRegex`,
  `exportGraph`.
* the naive `WorkspaceDependencyResolver` and the reverse-index-optimized
  `WorkspaceDependencyResolver` (`WorkspaceDependencyResolverOptimized.ts`)
  with their `findFilesInProjectDependingOnChangedPaths` queries.

Modelling conventions:

* JavaScript `Set` objects are modelled as insertion-ordered duplicate-free
  `List`s (`setAdd` / `setDelete`).
* JavaScript `Map` objects are modelled as insertion-ordered association
  lists with in-place overwrite (`assocSet`).
* `ModuleNode` objects are identified by their `file` path; the object heap
  of the current build generation is the `objects` list of the graph state,
  and object references inside `importedModules` / `importers` are stored as
  the referenced node's file path.  `fileToModule` is the heap restricted to
  the keys in `tableKeys` (a `Map` key always equals the stored node's
  `file`).  Within one build generation file paths of heap objects are
  unique, so this representation is faithful.
* External collaborators (haste file enumeration, raw-dependency lookup,
  the import resolver, `path.resolve`, and the best-effort `package.json`
  name read) are inputs: functions stored in `ProjectContext`,
  `DependencyResolver` and `PathEnv`.  A resolver that throws is modelled
  as returning `Except.error`.
* Wall-clock build duration (`stats.buildTimeMs`) and the floating-point
  `averageImportersPerFile` of `getStats` are not modelled; the three
  integer counters of `stats` are.
-/

namespace JestGraph

/-- JavaScript `Set.add` on an insertion-ordered duplicate-free list. -/
def setAdd (l : List String) (x : String) : List String :=
  if x ∈ l then l else l ++ [x]

/-- JavaScript `Set.delete` / `Map.delete` for string elements. -/
def setDelete (l : List String) (x : String) : List String :=
  l.filter (fun y => y ≠ x)

/-- Character-list version of JavaScript `String.prototype.startsWith`. -/
def charsStartWith : List Char → List Char → Bool
  | [], _ => true
  | _ :: _, [] => false
  | a :: as, b :: bs => a == b && charsStartWith as bs

/-- JavaScript `s.startsWith(p)`. -/
def strStartsWith (s p : String) : Bool :=
  charsStartWith p.toList s.toList

/-- The `normalizePosix` helper of both resolver files: replace every
backslash by a forward slash. -/
def normalizePosix (filePath : String) : String :=
  String.mk (filePath.toList.map (fun c => if c == '\\' then '/' else c))

/-- JavaScript `Map.set`: overwrite in place if the key is present,
otherwise append. -/
def assocSet {α : Type} (m : List (String × α)) (k : String) (v : α) :
    List (String × α) :=
  if m.any (fun p => p.1 == k) then
    m.map (fun p => if p.1 == k then (k, v) else p)
  else m ++ [(k, v)]

/-- JavaScript `Map.get`. -/
def assocGet {α : Type} (m : List (String × α)) (k : String) : Option α :=
  (m.find? (fun p => p.1 == k)).map (fun p => p.2)

/-- The idiom `if (!m.has(k)) m.set(k, new Set()); m.get(k).add(x)`. -/
def assocAddToSet (m : List (String × List String)) (k x : String) :
    List (String × List String) :=
  if m.any (fun p => p.1 == k) then
    m.map (fun p => if p.1 == k then (p.1, setAdd p.2 x) else p)
  else m ++ [(k, [x])]

/-! ### A model of the JavaScript regular expressions used by the graph

`convertGlobToRegex` produces regex source strings built from literal
characters, `.`, the class `[^/]` and the postfix `*`; the test regexes fed
to `new RegExp` in `isTestFile` are modelled over the same subset (plus
backslash escapes).  `RegExp.prototype.test` performs an unanchored
existential search, modelled by `regexTest`. -/

/-- Regex tokens for the subset of JavaScript regular expressions that the
graph code generates and consumes. -/
inductive RegexTok where
  | lit : Char → RegexTok
  | anyChar : RegexTok
  | nonSlash : RegexTok
  | star : RegexTok → RegexTok
deriving DecidableEq, Repr

/-- Does a single (non-star) token match one character? -/
def tokMatch : RegexTok → Char → Bool
  | .lit c, d => c == d
  | .anyChar, _ => true
  | .nonSlash, d => d != '/'
  | .star _, _ => false

/-- Iteration of a starred token: `starLoop k t s` holds when some
(possibly empty) prefix of `s` consists of characters matching `t` and the
continuation `k` accepts the corresponding suffix. -/
def starLoop (k : List Char → Bool) (t : RegexTok) : List Char → Bool
  | [] => k []
  | c :: s' => k (c :: s') || (tokMatch t c && starLoop k t s')

/-- Backtracking matcher: does the token list match some prefix of the
character list?  (An empty pattern matches; `star` is existential, realised
by `starLoop` applied to the matcher of the remaining tokens.) -/
def reMatchPrefix : List RegexTok → List Char → Bool
  | [], _ => true
  | .star t :: ts, s => starLoop (reMatchPrefix ts) t s
  | t :: ts, s =>
    match s with
    | [] => false
    | c :: s' => tokMatch t c && reMatchPrefix ts s'

/-- Unanchored search: does the pattern match starting at some position? -/
def reSearch (ts : List RegexTok) : List Char → Bool
  | [] => reMatchPrefix ts []
  | c :: rest => reMatchPrefix ts (c :: rest) || reSearch ts rest

/-- Parse a regex source string (restricted to the subset above) into
tokens; a `*` is a postfix operator on the preceding atom.  Handles the
atoms `[^/]`, `.`, `\c` (escape) and literal characters. -/
def parseRegex : List Char → List RegexTok
  | [] => []
  | '[' :: '^' :: '/' :: ']' :: '*' :: rest => .star .nonSlash :: parseRegex rest
  | '[' :: '^' :: '/' :: ']' :: rest => .nonSlash :: parseRegex rest
  | '\\' :: c :: '*' :: rest => .star (.lit c) :: parseRegex rest
  | '\\' :: c :: rest => .lit c :: parseRegex rest
  | '.' :: '*' :: rest => .star .anyChar :: parseRegex rest
  | '.' :: rest => .anyChar :: parseRegex rest
  | c :: '*' :: rest => .star (.lit c) :: parseRegex rest
  | c :: rest => .lit c :: parseRegex rest

/-- JavaScript `new RegExp(pattern).test(s)` for the modelled subset. -/
def regexTest (pattern : String) (s : String) : Bool :=
  reSearch (parseRegex pattern.toList) s.toList

/-! ### `convertGlobToRegex`

The source applies three successive global string replacements
(`** ↦ .*`, then `* ↦ [^/]*`, then `? ↦ .`); note that the second
replacement also rewrites the `*` contained in the `.*` produced by the
first one. -/

/-- First replacement: `pattern.replace(/\*\*/g, '.*')` (left-to-right,
non-overlapping). -/
def replaceDoubleStar : List Char → List Char
  | [] => []
  | '*' :: '*' :: rest => '.' :: '*' :: replaceDoubleStar rest
  | c :: rest => c :: replaceDoubleStar rest

/-- Second replacement: `.replace(/\*/g, '[^/]*')`. -/
def replaceSingleStar : List Char → List Char
  | [] => []
  | '*' :: rest => '[' :: '^' :: '/' :: ']' :: '*' :: replaceSingleStar rest
  | c :: rest => c :: replaceSingleStar rest

/-- Third replacement: `.replace(/\?/g, '.')`. -/
def replaceQuestion : List Char → List Char
  | [] => []
  | '?' :: rest => '.' :: replaceQuestion rest
  | c :: rest => c :: replaceQuestion rest

/-- `GlobalDependencyGraph.convertGlobToRegex`, producing the regex source
string that the code hands to `new RegExp`. -/
def convertGlobToRegex (pattern : String) : String :=
  String.mk (replaceQuestion (replaceSingleStar (replaceDoubleStar pattern.toList)))

/-! ### Data model -/

/-- Ambient process facilities: `path.resolve` and the best-effort
`require(rootDir + '/package.json').name || null` read performed by
`addProject` (read failure or an empty name yields `none`). -/
structure PathEnv where
  resolve : String → String
  packageNameOf : String → Option String

/-- A project's import resolver (`jest-resolve-dependencies`): given a file
path and the `skipNodeResolution` option it returns resolved absolute paths
or throws (modelled as `Except.error`). -/
structure DependencyResolver where
  resolve : String → Bool → Except Unit (List String)

/-- The slice of a Jest `TestContext` the graph consumes: `ctxId` stands for
JavaScript object identity (each registered context gets a distinct id);
`files` is `hasteFS.getAbsoluteFileIterator()`, `deps` is
`hasteFS.getDependencies`, and the remaining fields are the used parts of
`context.config` (`testRegex` folds the scalar-or-array config form into a
list). -/
structure ProjectContext where
  ctxId : Nat
  rootDir : String
  skipNodeResolution : Bool
  files : List String
  deps : String → Option (List String)
  testMatch : Option (List String)
  testRegex : Option (List String)

/-- A `ModuleNode` of `GlobalDependencyGraph`; `importedModules`,
`importers` and `rawImports` are JavaScript `Set`s, the two edge sets
holding references to other nodes (stored as their file paths). -/
structure ModuleNode where
  file : String
  projectRoot : String
  importedModules : List String
  importers : List String
  rawImports : List String
  isTest : Bool
deriving DecidableEq, Repr

/-- `ProjectMetadata` as registered by `GlobalDependencyGraph.addProject`. -/
structure ProjectMetadata where
  name : String
  rootDir : String
  context : ProjectContext
  dependencyResolver : DependencyResolver
  packageName : Option String

/-- The three integer counters of the graph's `stats` record. -/
structure Stats where
  totalModules : Nat
  totalEdges : Nat
  crossProjectEdges : Nat
deriving DecidableEq, Repr

/-- The mutable state of a `GlobalDependencyGraph` instance.  `objects` is
the heap of `ModuleNode` objects of the current build generation and
`tableKeys` the key set of the `fileToModule` map (deleting a key leaves
the object on the heap, exactly as deleting a `Map` entry leaves the
JavaScript object alive for anyone still holding a reference to it). -/
structure GlobalDependencyGraph where
  projects : List ProjectMetadata
  objects : List ModuleNode
  tableKeys : List String
  packageToProject : List (String × ProjectMetadata)
  projectToFiles : List (String × List String)
  isGraphBuilt : Bool
  stats : Stats

/-- The empty graph (field initializers of the class). -/
def GlobalDependencyGraph.empty : GlobalDependencyGraph :=
  { projects := [], objects := [], tableKeys := [], packageToProject := [],
    projectToFiles := [], isGraphBuilt := false,
    stats := { totalModules := 0, totalEdges := 0, crossProjectEdges := 0 } }

/-- Dereference a node object on the heap by its file path. -/
def storeGet (objs : List ModuleNode) (f : String) : Option ModuleNode :=
  objs.find? (fun m => m.file == f)

/-- `Map.set` on the heap keyed by `node.file`. -/
def storeSet (objs : List ModuleNode) (n : ModuleNode) : List ModuleNode :=
  if objs.any (fun m => m.file == n.file) then
    objs.map (fun m => if m.file == n.file then n else m)
  else objs ++ [n]

/-- Update the node object with the given file path in place. -/
def updateNode (objs : List ModuleNode) (f : String)
    (upd : ModuleNode → ModuleNode) : List ModuleNode :=
  objs.map (fun m => if m.file == f then upd m else m)

namespace GlobalDependencyGraph

/-- `this.fileToModule.get(f)`. -/
def tableGet (g : GlobalDependencyGraph) (f : String) : Option ModuleNode :=
  if f ∈ g.tableKeys then storeGet g.objects f else none

/-- `GlobalDependencyGraph.addProject`. -/
def addProject (env : PathEnv) (g : GlobalDependencyGraph)
    (context : ProjectContext) (dependencyResolver : DependencyResolver) :
    GlobalDependencyGraph :=
  let packageName := env.packageNameOf context.rootDir
  let projectRoot := env.resolve context.rootDir
  let metadata : ProjectMetadata :=
    { context, dependencyResolver,
      name := "Project(" ++ projectRoot ++ ")",
      packageName, rootDir := projectRoot }
  let g := { g with projects := g.projects ++ [metadata] }
  let g :=
    match packageName with
    | some pn => { g with packageToProject := assocSet g.packageToProject pn metadata }
    | none => g
  { g with isGraphBuilt := false }

/-- `GlobalDependencyGraph.isTestFile`: glob patterns take precedence when
the `testMatch` config field is present; otherwise `testRegex` is tried;
with neither present no file is a test. -/
def isTestFile (file : String) (context : ProjectContext) : Bool :=
  match context.testMatch with
  | some patterns =>
    patterns.any (fun pattern => regexTest (convertGlobToRegex pattern) file)
  | none =>
    match context.testRegex with
    | some patterns => patterns.any (fun pattern => regexTest pattern file)
    | none => false

/-- The package-name matches that `resolveCrossProjectDependencies` detects
(first matching `packageToProject` entry per raw specifier, mirroring the
inner `break`) — the source computes them and discards them. -/
def crossProjectDependencyMatches (packageToProject : List (String × ProjectMetadata))
    (rawDependencies : List String) : List (String × String) :=
  rawDependencies.filterMap (fun rawDep =>
    (packageToProject.find? (fun p =>
        rawDep == p.1 || strStartsWith rawDep (p.1 ++ "/"))).map
      (fun p => (rawDep, p.1)))

/-- `GlobalDependencyGraph.resolveCrossProjectDependencies`: scans the raw
specifiers for workspace package-name matches and discards the result; the
graph state is returned unchanged (the method mutates nothing). -/
def resolveCrossProjectDependencies (g : GlobalDependencyGraph)
    (_sourceNode : ModuleNode) (rawDependencies : List String) :
    GlobalDependencyGraph :=
  let _ := crossProjectDependencyMatches g.packageToProject rawDependencies
  g

/-- Phase 1 inner loop of `buildGraph`: create one `ModuleNode` per
enumerated file of one project (`Map.set` overwrites an existing entry for
the same path), collecting the project's file set and counting modules. -/
def addNodesForFiles (project : ProjectMetadata) :
    List String → List ModuleNode → List String → Nat →
    List ModuleNode × List String × Nat
  | [], objs, filesInProject, totalModules => (objs, filesInProject, totalModules)
  | file :: rest, objs, filesInProject, totalModules =>
    let node : ModuleNode :=
      { file, importedModules := [], importers := [],
        isTest := isTestFile file project.context,
        projectRoot := project.rootDir, rawImports := [] }
    addNodesForFiles project rest (storeSet objs node)
      (setAdd filesInProject file) (totalModules + 1)

/-- Phase 1 of `buildGraph` over all projects. -/
def buildNodePhase :
    List ProjectMetadata → GlobalDependencyGraph → GlobalDependencyGraph
  | [], g => g
  | project :: rest, g =>
    let r := addNodesForFiles project project.context.files g.objects [] g.stats.totalModules
    buildNodePhase rest
      { g with objects := r.1,
               tableKeys := r.1.map (fun n => n.file),
               projectToFiles := assocSet g.projectToFiles project.rootDir r.2.1,
               stats := { g.stats with totalModules := r.2.2 } }

/-- Phase 2 inner loop: install one mirrored edge per resolved dependency
that has a node, incrementing `totalEdges` on every hit (even a repeated
one) and `crossProjectEdges` when the project roots differ. -/
def addEdgesForResolvedDeps (sourceFile sourceRoot : String) :
    List String → GlobalDependencyGraph → GlobalDependencyGraph
  | [], g => g
  | depFile :: rest, g =>
    match tableGet g depFile with
    | none => addEdgesForResolvedDeps sourceFile sourceRoot rest g
    | some targetNode =>
      let objs := updateNode g.objects sourceFile
        (fun n => { n with importedModules := setAdd n.importedModules depFile })
      let objs := updateNode objs depFile
        (fun n => { n with importers := setAdd n.importers sourceFile })
      let stats := { g.stats with totalEdges := g.stats.totalEdges + 1 }
      let stats :=
        if sourceRoot ≠ targetNode.projectRoot then
          { stats with crossProjectEdges := stats.crossProjectEdges + 1 }
        else stats
      addEdgesForResolvedDeps sourceFile sourceRoot rest
        { g with objects := objs, stats := stats }

/-- Phase 2 body for one file of one project: record raw imports, resolve
the file's dependencies (a thrown resolver error is caught and yields no
edges), then run the inert cross-project detection. -/
def buildEdgesForFile (project : ProjectMetadata) (file : String)
    (g : GlobalDependencyGraph) : GlobalDependencyGraph :=
  match tableGet g file with
  | none => g
  | some sourceNode =>
    match project.context.deps file with
    | none => g
    | some rawDependencies =>
      let objsWithRaw := updateNode g.objects file
        (fun n => { n with rawImports := rawDependencies.foldl setAdd n.rawImports })
      let g := { g with objects := objsWithRaw }
      let g :=
        match project.dependencyResolver.resolve file project.context.skipNodeResolution with
        | .error _ => g
        | .ok resolvedDeps => addEdgesForResolvedDeps file sourceNode.projectRoot resolvedDeps g
      resolveCrossProjectDependencies g sourceNode rawDependencies

/-- Phase 2 of `buildGraph` over the files of one project. -/
def buildEdgePhaseFiles (project : ProjectMetadata) :
    List String → GlobalDependencyGraph → GlobalDependencyGraph
  | [], g => g
  | file :: rest, g => buildEdgePhaseFiles project rest (buildEdgesForFile project file g)

/-- Phase 2 of `buildGraph` over all projects. -/
def buildEdgePhase :
    List ProjectMetadata → GlobalDependencyGraph → GlobalDependencyGraph
  | [], g => g
  | project :: rest, g =>
    buildEdgePhase rest (buildEdgePhaseFiles project project.context.files g)

/-- `GlobalDependencyGraph.buildGraph`: a no-op when the graph is already
marked valid; otherwise clear the node table, the project-file index and
the three counters, run both phases, and mark the graph valid. -/
def buildGraph (g : GlobalDependencyGraph) : GlobalDependencyGraph :=
  if g.isGraphBuilt then g
  else
    let g := { g with objects := [], tableKeys := [], projectToFiles := [],
                      stats := { totalModules := 0, totalEdges := 0, crossProjectEdges := 0 } }
    let g := buildNodePhase g.projects g
    let g := buildEdgePhase g.projects g
    { g with isGraphBuilt := true }

/-- Number of heap files not yet in the visited set (termination measure of
the breadth-first traversals). -/
def unvisitedCount (objs : List ModuleNode) (visited : List String) : Nat :=
  ((objs.map (fun n => n.file)).filter (fun x => x ∉ visited)).length

/-- The importer loop of `findAffectedTests`: for each importer reference
(dereferenced on the heap) that is not yet visited, mark it visited and
queue it.  Returns the new visited set and the queued files in order. -/
def enqueueImporters (objs : List ModuleNode) :
    List String → List String → List String × List String
  | [], visited => (visited, [])
  | i :: rest, visited =>
    match storeGet objs i with
    | none => enqueueImporters objs rest visited
    | some _ =>
      if i ∈ visited then enqueueImporters objs rest visited
      else
        let r := enqueueImporters objs rest (visited ++ [i])
        (r.1, i :: r.2)

/-- The BFS loop of `findAffectedTests`: pop the queue front, collect the
node's file when `isTest`, and enqueue its unvisited importers. -/
def bfsAffectedTests (objs : List ModuleNode) :
    List String → List String → List String → List String
  | [], _, acc => acc
  | f :: rest, visited, acc =>
    match storeGet objs f with
    | none => bfsAffectedTests objs rest visited acc
    | some node =>
      let acc' := if node.isTest then setAdd acc node.file else acc
      let r := enqueueImporters objs node.importers visited
      bfsAffectedTests objs (rest ++ r.2) r.1 acc'
termination_by queue visited _ => unvisitedCount objs visited + queue.length
decreasing_by
· simp [List.length_cons]
· have filterDrop : ∀ (p q : String → Bool) (x : String) (l : List String),
      (∀ y, q y = true → p y = true) → q x = false → p x = true → x ∈ l →
      (l.filter q).length + 1 ≤ (l.filter p).length := by
    intro p q x l hpq hqx hpx hxl
    have mono : ∀ (l' : List String), (l'.filter q).length ≤ (l'.filter p).length := by
      intro l'
      induction l' with
      | nil => simp
      | cons a l' ihl =>
        cases hq : q a with
        | false =>
          cases hp : p a with
          | false => simpa [List.filter_cons, hq, hp] using ihl
          | true =>
            simp only [List.filter_cons, hq, hp, if_true, if_false, List.length_cons]
            exact Nat.le_succ_of_le ihl
        | true =>
          have hp := hpq a hq
          simp only [List.filter_cons, hq, hp, if_true, List.length_cons]
          exact Nat.succ_le_succ ihl
    induction l with
    | nil => cases hxl
    | cons a l ihl =>
      rcases List.mem_cons.mp hxl with rfl | hx'
      · simp only [List.filter_cons, hqx, hpx, if_true, if_false, List.length_cons]
        exact Nat.succ_le_succ (mono l)
      · cases hq : q a with
        | true =>
          have hp := hpq a hq
          simp only [List.filter_cons, hq, hp, if_true, List.length_cons]
          exact Nat.succ_le_succ (ihl hx')
        | false =>
          cases hp : p a with
          | false => simpa [List.filter_cons, hq, hp] using ihl hx'
          | true =>
            simp only [List.filter_cons, hq, hp, if_true, if_false, List.length_cons]
            exact Nat.le_succ_of_le (ihl hx')
  have key : ∀ (imps vis : List String),
      unvisitedCount objs (enqueueImporters objs imps vis).1 +
        (enqueueImporters objs imps vis).2.length ≤ unvisitedCount objs vis := by
    intro imps
    induction imps with
    | nil => intro vis; simp [enqueueImporters]
    | cons i rest ih =>
      intro vis
      cases hsg : storeGet objs i with
      | none => simpa only [enqueueImporters, hsg] using ih vis
      | some n =>
        by_cases hv : i ∈ vis
        · simpa only [enqueueImporters, hsg, if_pos hv] using ih vis
        · have hifile : i ∈ objs.map (fun n => n.file) := by
            have hmem := List.mem_of_find?_eq_some hsg
            have hp := List.find?_some hsg
            have hfi : n.file = i := by simpa using hp
            exact hfi ▸ List.mem_map.mpr ⟨n, hmem, rfl⟩
          have h1 := ih (vis ++ [i])
          have h2 : unvisitedCount objs (vis ++ [i]) + 1 ≤ unvisitedCount objs vis := by
            refine filterDrop _ _ i _ ?_ ?_ ?_ hifile
            · intro y hy
              simp only [decide_eq_true_eq] at hy ⊢
              exact fun hyv => hy (List.mem_append.mpr (Or.inl hyv))
            · simp
            · simpa using hv
          simp only [enqueueImporters, hsg, if_neg hv, List.length_cons]
          omega
  have hk := key node.importers visited
  simp only [List.length_append, List.length_cons]
  omega

/-- The seed loop of `findAffectedTests`: changed files are resolved with
`path.resolve`; files with a node in the table are pushed on the queue and
their file marked visited, others are ignored. -/
def collectSeeds (env : PathEnv) (g : GlobalDependencyGraph) :
    List String → List String × List String → List String × List String
  | [], qv => qv
  | changedFile :: rest, qv =>
    match g.tableGet (env.resolve changedFile) with
    | some node => collectSeeds env g rest (qv.1 ++ [node.file], setAdd qv.2 node.file)
    | none => collectSeeds env g rest qv

/-- `GlobalDependencyGraph.findAffectedTests`: ensures the graph is built,
seeds the BFS with the changed files present in the graph, and traverses
importer edges collecting test files.  Returns the (possibly rebuilt)
graph state together with the result set. -/
def findAffectedTests (env : PathEnv) (g : GlobalDependencyGraph)
    (changedFiles : List String) : GlobalDependencyGraph × List String :=
  let g := g.buildGraph
  let s := collectSeeds env g changedFiles ([], [])
  (g, bfsAffectedTests g.objects s.1 s.2 [])

/-- The importer loop of `findAffectedFilesInProject`: unvisited importers
are marked visited, collected when they belong to the target project, and
queued.  Returns (visited, collected, queued). -/
def enqueueCollectImporters (objs : List ModuleNode) (targetProjectRoot : String) :
    List String → List String → List String →
    List String × List String × List String
  | [], visited, acc => (visited, acc, [])
  | i :: rest, visited, acc =>
    match storeGet objs i with
    | none => enqueueCollectImporters objs targetProjectRoot rest visited acc
    | some importerNode =>
      if i ∈ visited then enqueueCollectImporters objs targetProjectRoot rest visited acc
      else
        let acc' := if importerNode.projectRoot == targetProjectRoot then
            setAdd acc importerNode.file
          else acc
        let r := enqueueCollectImporters objs targetProjectRoot rest (visited ++ [i]) acc'
        (r.1, r.2.1, i :: r.2.2)

/-- The BFS loop of `findAffectedFilesInProject`. -/
def bfsAffectedFilesInProject (objs : List ModuleNode) (targetProjectRoot : String) :
    List String → List String → List String → List String
  | [], _, acc => acc
  | f :: rest, visited, acc =>
    match storeGet objs f with
    | none => bfsAffectedFilesInProject objs targetProjectRoot rest visited acc
    | some node =>
      let r := enqueueCollectImporters objs targetProjectRoot node.importers visited acc
      bfsAffectedFilesInProject objs targetProjectRoot (rest ++ r.2.2) r.1 r.2.1
termination_by queue visited _ => unvisitedCount objs visited + queue.length
decreasing_by
· simp [List.length_cons]
· have filterDrop : ∀ (p q : String → Bool) (x : String) (l : List String),
      (∀ y, q y = true → p y = true) → q x = false → p x = true → x ∈ l →
      (l.filter q).length + 1 ≤ (l.filter p).length := by
    intro p q x l hpq hqx hpx hxl
    have mono : ∀ (l' : List String), (l'.filter q).length ≤ (l'.filter p).length := by
      intro l'
      induction l' with
      | nil => simp
      | cons a l' ihl =>
        cases hq : q a with
        | false =>
          cases hp : p a with
          | false => simpa [List.filter_cons, hq, hp] using ihl
          | true =>
            simp only [List.filter_cons, hq, hp, if_true, if_false, List.length_cons]
            exact Nat.le_succ_of_le ihl
        | true =>
          have hp := hpq a hq
          simp only [List.filter_cons, hq, hp, if_true, List.length_cons]
          exact Nat.succ_le_succ ihl
    induction l with
    | nil => cases hxl
    | cons a l ihl =>
      rcases List.mem_cons.mp hxl with rfl | hx'
      · simp only [List.filter_cons, hqx, hpx, if_true, if_false, List.length_cons]
        exact Nat.succ_le_succ (mono l)
      · cases hq : q a with
        | true =>
          have hp := hpq a hq
          simp only [List.filter_cons, hq, hp, if_true, List.length_cons]
          exact Nat.succ_le_succ (ihl hx')
        | false =>
          cases hp : p a with
          | false => simpa [List.filter_cons, hq, hp] using ihl hx'
          | true =>
            simp only [List.filter_cons, hq, hp, if_true, if_false, List.length_cons]
            exact Nat.le_succ_of_le (ihl hx')
  have key : ∀ (imps vis ac : List String),
      unvisitedCount objs (enqueueCollectImporters objs targetProjectRoot imps vis ac).1 +
        (enqueueCollectImporters objs targetProjectRoot imps vis ac).2.2.length ≤
        unvisitedCount objs vis := by
    intro imps
    induction imps with
    | nil => intro vis ac; simp [enqueueCollectImporters]
    | cons i rest ih =>
      intro vis ac
      cases hsg : storeGet objs i with
      | none => simpa only [enqueueCollectImporters, hsg] using ih vis ac
      | some n =>
        by_cases hv : i ∈ vis
        · simpa only [enqueueCollectImporters, hsg, if_pos hv] using ih vis ac
        · have hifile : i ∈ objs.map (fun n => n.file) := by
            have hmem := List.mem_of_find?_eq_some hsg
            have hp := List.find?_some hsg
            have hfi : n.file = i := by simpa using hp
            exact hfi ▸ List.mem_map.mpr ⟨n, hmem, rfl⟩
          have h1 := ih (vis ++ [i])
            (if n.projectRoot == targetProjectRoot then setAdd ac n.file else ac)
          have h2 : unvisitedCount objs (vis ++ [i]) + 1 ≤ unvisitedCount objs vis := by
            refine filterDrop _ _ i _ ?_ ?_ ?_ hifile
            · intro y hy
              simp only [decide_eq_true_eq] at hy ⊢
              exact fun hyv => hy (List.mem_append.mpr (Or.inl hyv))
            · simp
            · simpa using hv
          simp only [enqueueCollectImporters, hsg, if_neg hv, List.length_cons]
          omega
  have hk := key node.importers visited acc
  simp only [List.length_append, List.length_cons]
  omega

/-- The seed loop of `findAffectedFilesInProject`: like `collectSeeds` but
additionally records the owning project roots of changed files (a set the
source computes and never reads).  Returns (changedProjects, queue,
visited). -/
def collectSeedsAndProjects (env : PathEnv) (g : GlobalDependencyGraph) :
    List String → List String × List String × List String →
    List String × List String × List String
  | [], acc => acc
  | changedFile :: rest, acc =>
    match g.tableGet (env.resolve changedFile) with
    | some node =>
      collectSeedsAndProjects env g rest
        (setAdd acc.1 node.projectRoot, acc.2.1 ++ [node.file], setAdd acc.2.2 node.file)
    | none => collectSeedsAndProjects env g rest acc

/-- `GlobalDependencyGraph.findAffectedFilesInProject`. -/
def findAffectedFilesInProject (env : PathEnv) (g : GlobalDependencyGraph)
    (targetProjectRoot : String) (changedFiles : List String) :
    GlobalDependencyGraph × List String :=
  let g := g.buildGraph
  let s := collectSeedsAndProjects env g changedFiles ([], [], [])
  (g, bfsAffectedFilesInProject g.objects targetProjectRoot s.2.1 s.2.2 [])

/-- `GlobalDependencyGraph.invalidateFiles`: for each file, look its node up
under the resolved path; remove the node from every neighbor's edge set on
both sides, then delete the map entry — under the file path exactly as
given, not the resolved one. -/
def invalidateFiles (env : PathEnv) :
    GlobalDependencyGraph → List String → GlobalDependencyGraph
  | g, [] => g
  | g, file :: rest =>
    match g.tableGet (env.resolve file) with
    | none => invalidateFiles env g rest
    | some node =>
      let objs := node.importedModules.foldl (fun objs imported =>
        updateNode objs imported
          (fun m => { m with importers := setDelete m.importers node.file })) g.objects
      let objs := node.importers.foldl (fun objs importer =>
        updateNode objs importer
          (fun m => { m with importedModules := setDelete m.importedModules node.file })) objs
      invalidateFiles env
        { g with objects := objs, tableKeys := setDelete g.tableKeys file } rest

end GlobalDependencyGraph

/-- A node entry of the `exportGraph` dump (`{file, project, isTest}`). -/
structure ExportedNode where
  file : String
  project : String
  isTest : Bool
deriving DecidableEq, Repr

/-- An edge entry of the `exportGraph` dump; the source fields `from` and
`to` are reserved words in Lean and appear here as `fromFile` / `toFile`. -/
structure ExportedEdge where
  fromFile : String
  toFile : String
  crossProject : Bool
deriving DecidableEq, Repr

namespace GlobalDependencyGraph

/-- The loop of `exportGraph` over `fileToModule.values()` (map insertion
order), pushing each node entry and the edge entries of its outgoing
references. -/
def exportLoop (objs : List ModuleNode) :
    List String → List ExportedNode × List ExportedEdge →
    List ExportedNode × List ExportedEdge
  | [], acc => acc
  | key :: rest, acc =>
    match storeGet objs key with
    | none => exportLoop objs rest acc
    | some node =>
      let nodes := acc.1 ++
        [{ file := node.file, project := node.projectRoot, isTest := node.isTest }]
      let edges := acc.2 ++ node.importedModules.filterMap (fun imported =>
        (storeGet objs imported).map (fun tn =>
          { fromFile := node.file, toFile := tn.file,
            crossProject := node.projectRoot != tn.projectRoot }))
      exportLoop objs rest (nodes, edges)

/-- `GlobalDependencyGraph.exportGraph`: ensures the graph is built and
dumps all nodes and edges. -/
def exportGraph (g : GlobalDependencyGraph) :
    GlobalDependencyGraph × (List ExportedNode × List ExportedEdge) :=
  let g := g.buildGraph
  (g, exportLoop g.objects g.tableKeys ([], []))

end GlobalDependencyGraph

/-! ### The two `WorkspaceDependencyResolver` classes

The naive class lives alongside the graph; the optimized one is
`WorkspaceDependencyResolverOptimized.ts`.  Both keep a `projects` array
whose entries are compared by JavaScript object identity (`===`); since
`addProject` always pushes a fresh record, identity is modelled by list
position, and `p.context === targetContext` by the context id. -/

/-- A `WorkspaceProject` record of either resolver class. -/
structure WorkspaceProject where
  name : Option String
  rootDir : String
  context : ProjectContext
  dependencyResolver : DependencyResolver

/-- `addProject` of both resolver classes: best-effort package-name read,
resolved root, push.  (The optimized class additionally resets its cached
reverse index to `null`, modelled by the caller passing a `none` cache.) -/
def wdrAddProject (env : PathEnv) (projects : List WorkspaceProject)
    (context : ProjectContext) (dependencyResolver : DependencyResolver) :
    List WorkspaceProject :=
  projects ++ [{ name := env.packageNameOf context.rootDir,
                 rootDir := env.resolve context.rootDir,
                 context, dependencyResolver }]

namespace WorkspaceDependencyResolver

/-- Per-file body of the naive
`findFilesInProjectDependingOnChangedPaths` loop: files without raw
dependency data are skipped entirely; the resolver call is not guarded, so
a thrown error propagates; mechanism (a) adds the file when its resolved
dependencies contain a changed path, mechanism (b) adds it when it
raw-imports the package name of another registered project that contains a
changed path (without re-resolving). -/
def fileLoop (targetProject : WorkspaceProject) (targetContext : ProjectContext)
    (otherProjectsByRoot : List (String × WorkspaceProject))
    (changedPathsArray : List String) :
    List String → List String → Except Unit (List String)
  | [], filesInProject => .ok filesInProject
  | file :: rest, filesInProject =>
    match targetContext.deps file with
    | none =>
      fileLoop targetProject targetContext otherProjectsByRoot changedPathsArray rest filesInProject
    | some rawDependencies =>
      match targetProject.dependencyResolver.resolve file targetContext.skipNodeResolution with
      | .error e => .error e
      | .ok resolvedDependencies =>
        let filesInProject :=
          if changedPathsArray.any (fun changedPath => resolvedDependencies.contains changedPath)
          then setAdd filesInProject file else filesInProject
        let filesInProject :=
          if filesInProject.contains file then filesInProject
          else if rawDependencies.any (fun rawDep =>
              otherProjectsByRoot.any (fun pr =>
                (match pr.2.name with
                 | some nm => rawDep == nm || strStartsWith rawDep (nm ++ "/")
                 | none => false) &&
                changedPathsArray.any (fun changedPath =>
                  strStartsWith (normalizePosix changedPath) (normalizePosix pr.1 ++ "/") ||
                  normalizePosix changedPath == normalizePosix pr.1)))
          then setAdd filesInProject file else filesInProject
        fileLoop targetProject targetContext otherProjectsByRoot changedPathsArray rest filesInProject

/-- The naive `WorkspaceDependencyResolver.findFilesInProjectDependingOnChangedPaths`. -/
def findFilesInProjectDependingOnChangedPaths (env : PathEnv)
    (projects : List WorkspaceProject) (targetContext : ProjectContext)
    (changedPaths : List String) : Except Unit (List String) :=
  let changedPathsArray := changedPaths.map env.resolve
  match projects.enum.find? (fun p => p.2.context.ctxId == targetContext.ctxId) with
  | none => .ok []
  | some ip =>
    let otherProjects := (projects.enum.filter (fun p => p.1 ≠ ip.1)).map (fun p => p.2)
    let otherProjectsByRoot := otherProjects.foldl (fun m project =>
      match project.name with
      | some _ => assocSet m project.rootDir project
      | none => m) []
    fileLoop ip.2 targetContext otherProjectsByRoot changedPathsArray targetContext.files []

end WorkspaceDependencyResolver

namespace WorkspaceDependencyResolverOptimized

/-- The reverse index: project root → (package name → files of that project
importing the package). -/
abbrev RevIndex := List (String × List (String × List String))

/-- The package names of all other projects considered when indexing one
project (`otherProject !== project && otherProject.name`). -/
def otherPackages (projects : List WorkspaceProject) (selfIdx : Nat) : List String :=
  (projects.enum.filter (fun p => p.1 ≠ selfIdx)).foldl (fun s p =>
    match p.2.name with
    | some nm => setAdd s nm
    | none => s) []

/-- Index the files of one project: for every raw specifier matching
another project's package name (`name` or `name/…`), record the file under
that package name. -/
def indexProjectFiles (ctx : ProjectContext) (pkgs : List String) :
    List String → List (String × List String) → List (String × List String)
  | [], projectIndex => projectIndex
  | file :: rest, projectIndex =>
    match ctx.deps file with
    | none => indexProjectFiles ctx pkgs rest projectIndex
    | some rawDependencies =>
      let projectIndex := rawDependencies.foldl (fun pi rawDep =>
        pkgs.foldl (fun pi packageName =>
          if rawDep == packageName || strStartsWith rawDep (packageName ++ "/")
          then assocAddToSet pi packageName file
          else pi) pi) projectIndex
      indexProjectFiles ctx pkgs rest projectIndex

/-- `WorkspaceDependencyResolver.buildReverseIndex` of the optimized class
(pure recomputation; the class caches the result in a nullable field). -/
def buildReverseIndex (projects : List WorkspaceProject) : RevIndex :=
  projects.enum.foldl (fun reverseIndex ip =>
    assocSet reverseIndex ip.2.rootDir
      (indexProjectFiles ip.2.context (otherPackages projects ip.1) ip.2.context.files []))
    []

/-- Group the resolved changed paths by the first other project whose root
directory path-prefixes them (the target project itself is skipped). -/
def changedPathsByProject (projects : List WorkspaceProject) (targetIdx : Nat)
    (changedPathsArray : List String) : List (String × List String) :=
  changedPathsArray.foldl (fun m changedPath =>
    match (projects.enum.filter (fun p => p.1 ≠ targetIdx)).find? (fun p =>
        strStartsWith (normalizePosix changedPath) (normalizePosix p.2.rootDir ++ "/") ||
        normalizePosix changedPath == normalizePosix p.2.rootDir) with
    | some p => assocAddToSet m p.2.rootDir changedPath
    | none => m) []

/-- Re-resolve the reverse-index candidate files and keep those whose
resolved dependencies contain one of the changed paths of the changed
project; the unguarded resolver call propagates a thrown error. -/
def resolveCandidates (targetProject : WorkspaceProject) (targetContext : ProjectContext)
    (paths : List String) :
    List String → List String → Except Unit (List String)
  | [], filesInProject => .ok filesInProject
  | file :: rest, filesInProject =>
    match targetProject.dependencyResolver.resolve file targetContext.skipNodeResolution with
    | .error e => .error e
    | .ok resolvedDependencies =>
      let filesInProject :=
        if paths.any (fun changedPath => resolvedDependencies.contains changedPath)
        then setAdd filesInProject file else filesInProject
      resolveCandidates targetProject targetContext paths rest filesInProject

/-- The cross-project phase: for every changed project with a known package
name, look up the target-project files importing that package and confirm
them by re-resolution. -/
def crossProjectLoop (targetProject : WorkspaceProject) (targetContext : ProjectContext)
    (projects : List WorkspaceProject) (projectIndex : List (String × List String)) :
    List (String × List String) → List String → Except Unit (List String)
  | [], filesInProject => .ok filesInProject
  | entry :: rest, filesInProject =>
    match projects.find? (fun p => p.rootDir == entry.1) with
    | none => crossProjectLoop targetProject targetContext projects projectIndex rest filesInProject
    | some changedProject =>
      match changedProject.name with
      | none => crossProjectLoop targetProject targetContext projects projectIndex rest filesInProject
      | some nm =>
        match assocGet projectIndex nm with
        | none => crossProjectLoop targetProject targetContext projects projectIndex rest filesInProject
        | some filesImportingPackage =>
          if filesImportingPackage.length == 0 then
            crossProjectLoop targetProject targetContext projects projectIndex rest filesInProject
          else
            match resolveCandidates targetProject targetContext entry.2 filesImportingPackage filesInProject with
            | .error e => .error e
            | .ok filesInProject =>
              crossProjectLoop targetProject targetContext projects projectIndex rest filesInProject

/-- The direct-dependency phase: every file of the target project not
already found is re-resolved (no raw-dependency guard) and added when its
resolved dependencies contain a changed path. -/
def directScanLoop (targetProject : WorkspaceProject) (targetContext : ProjectContext)
    (changedPathsArray : List String) :
    List String → List String → Except Unit (List String)
  | [], filesInProject => .ok filesInProject
  | file :: rest, filesInProject =>
    if filesInProject.contains file then
      directScanLoop targetProject targetContext changedPathsArray rest filesInProject
    else
      match targetProject.dependencyResolver.resolve file targetContext.skipNodeResolution with
      | .error e => .error e
      | .ok resolvedDependencies =>
        let filesInProject :=
          if changedPathsArray.any (fun changedPath => resolvedDependencies.contains changedPath)
          then setAdd filesInProject file else filesInProject
        directScanLoop targetProject targetContext changedPathsArray rest filesInProject

/-- The optimized
`WorkspaceDependencyResolver.findFilesInProjectDependingOnChangedPaths`.
`reverseIndexCache` models the class's nullable `reverseIndex` field
(reset to `null` by `addProject`, populated by `buildReverseIndex`). -/
def findFilesInProjectDependingOnChangedPaths (env : PathEnv)
    (projects : List WorkspaceProject) (reverseIndexCache : Option RevIndex)
    (targetContext : ProjectContext) (changedPaths : List String) :
    Except Unit (List String) :=
  let changedPathsArray := changedPaths.map env.resolve
  match projects.enum.find? (fun p => p.2.context.ctxId == targetContext.ctxId) with
  | none => .ok []
  | some ip =>
    let reverseIndex :=
      match reverseIndexCache with
      | some idx => idx
      | none => buildReverseIndex projects
    match assocGet reverseIndex ip.2.rootDir with
    | none => .ok []
    | some projectIndex =>
      let byProject := changedPathsByProject projects ip.1 changedPathsArray
      match crossProjectLoop ip.2 targetContext projects projectIndex byProject [] with
      | .error e => .error e
      | .ok filesInProject =>
        directScanLoop ip.2 targetContext changedPathsArray targetContext.files filesInProject

end WorkspaceDependencyResolverOptimized

/-! ### Specification-side predicates used by the theorems -/

/-- One backward step along importer edges: `a`'s node object holds a
reference to `b` in its `importers` set (and the reference dereferences on
the heap, as every reference created by the code does). -/
def importerStep (objs : List ModuleNode) (a b : String) : Prop :=
  ∃ n, storeGet objs a = some n ∧ b ∈ n.importers ∧ (storeGet objs b).isSome

/-- Zero or more backward steps along importer edges. -/
def ImporterReach (objs : List ModuleNode) (a b : String) : Prop :=
  Relation.ReflTransGen (importerStep objs) a b

/-- The file has a node on the heap whose `isTest` flag is set. -/
def isTestNodeAt (objs : List ModuleNode) (f : String) : Prop :=
  ∃ n, storeGet objs f = some n ∧ n.isTest = true

/-- `s` is a BFS seed file: some changed file path-resolves to a node of
the table and that node's file is `s`. -/
def IsSeed (env : PathEnv) (g : GlobalDependencyGraph)
    (changedFiles : List String) (s : String) : Prop :=
  ∃ c ∈ changedFiles, ∃ n, g.tableGet (env.resolve c) = some n ∧ n.file = s

/-- Decidable check of the mirror invariant over the node table: for every
table node `A`, every dereferencing member `B` of `A.importedModules` lists
`A` among its importers, and every dereferencing member `C` of
`A.importers` lists `A` among its imported modules. -/
def mirrorInvariantB (g : GlobalDependencyGraph) : Bool :=
  g.tableKeys.all (fun fa =>
    match g.tableGet fa with
    | none => true
    | some a =>
      a.importedModules.all (fun fb =>
        match storeGet g.objects fb with
        | none => true
        | some b => b.importers.contains a.file) &&
      a.importers.all (fun fc =>
        match storeGet g.objects fc with
        | none => true
        | some c => c.importedModules.contains a.file))

/-- The token list actually denoted by the code's glob conversion pipeline
on patterns over the plain glob alphabet: because the second replacement
also rewrites the `*` inside the `.*` produced for `**`, a `**` denotes
one arbitrary character followed by a run of non-separator characters. -/
def compileGlob : List Char → List RegexTok
  | [] => []
  | '*' :: '*' :: rest => .anyChar :: .star .nonSlash :: compileGlob rest
  | '*' :: rest => .star .nonSlash :: compileGlob rest
  | '?' :: rest => .anyChar :: compileGlob rest
  | '.' :: rest => .anyChar :: compileGlob rest
  | c :: rest => .lit c :: compileGlob rest

/-- Modelled from the spec: the glob-to-regex conversion the specification
claims (`**` → match any characters including separators, `*` → any
characters except the separator, `?` → exactly one character; a `.`
remains the regex any-character as the pattern is otherwise converted to a
regular expression verbatim). -/
def claimGlobTokens : List Char → List RegexTok
  | [] => []
  | '*' :: '*' :: rest => .star .anyChar :: claimGlobTokens rest
  | '*' :: rest => .star .nonSlash :: claimGlobTokens rest
  | '?' :: rest => .anyChar :: claimGlobTokens rest
  | '.' :: rest => .anyChar :: claimGlobTokens rest
  | c :: rest => .lit c :: claimGlobTokens rest

/-- Glob patterns over the plain alphabet: no characters that JavaScript
`RegExp` would interpret beyond the ones the conversion handles. -/
def allowedGlobChar (c : Char) : Bool :=
  !(c == '[' || c == ']' || c == '\x7b' || c == '\x7d' || c == '(' || c == ')' ||
    c == '\\' || c == '^' || c == '$' || c == '|' || c == '+')

/-! ### Concrete fixtures -/

/-- Identity path environment: models `path.resolve` on inputs that are
already absolute normalized paths, with no `package.json` anywhere. -/
def envId : PathEnv := { resolve := fun s => s, packageNameOf := fun _ => none }

/-- A resolver that never resolves anything. -/
def emptyResolver : DependencyResolver := { resolve := fun _ _ => .ok [] }

/-- A resolver that always throws. -/
def throwingResolver : DependencyResolver := { resolve := fun _ _ => .error () }

/-- Cycle fixture: one project, `a.test.ts` and `b.ts` importing each
other, `a.test.ts` classified as a test via `testRegex`. -/
def ctxCycle : ProjectContext :=
  { ctxId := 0, rootDir := "/w", skipNodeResolution := false,
    files := ["/w/a.test.ts", "/w/b.ts"],
    deps := fun f =>
      if f == "/w/a.test.ts" then some ["./b"]
      else if f == "/w/b.ts" then some ["./a"] else none,
    testMatch := none, testRegex := some ["a\\.test\\.ts"] }

/-- Resolver for the cycle fixture. -/
def cycleResolver : DependencyResolver :=
  { resolve := fun f _ =>
      if f == "/w/a.test.ts" then .ok ["/w/b.ts"]
      else if f == "/w/b.ts" then .ok ["/w/a.test.ts"] else .ok [] }

/-- The graph with the cycle project registered. -/
def gCycle : GlobalDependencyGraph :=
  GlobalDependencyGraph.addProject envId .empty ctxCycle cycleResolver

/-- Chain fixture: `u.ts` imported only by the non-test `a.ts`, which has
no importers; no test patterns configured. -/
def ctxChain : ProjectContext :=
  { ctxId := 1, rootDir := "/w2", skipNodeResolution := false,
    files := ["/w2/u.ts", "/w2/a.ts"],
    deps := fun f =>
      if f == "/w2/a.ts" then some ["./u"]
      else if f == "/w2/u.ts" then some [] else none,
    testMatch := none, testRegex := none }

/-- Resolver for the chain fixture. -/
def chainResolver : DependencyResolver :=
  { resolve := fun f _ => if f == "/w2/a.ts" then .ok ["/w2/u.ts"] else .ok [] }

/-- The graph with the chain project registered. -/
def gChain : GlobalDependencyGraph :=
  GlobalDependencyGraph.addProject envId .empty ctxChain chainResolver

/-- Invalidation fixture: `a.ts` imports `b.ts`; the environment resolves
the relative path `b.ts` to `/w3/b.ts` (`path.resolve` against the
process working directory `/w3`). -/
def ctxInval : ProjectContext :=
  { ctxId := 2, rootDir := "/w3", skipNodeResolution := false,
    files := ["/w3/a.ts", "/w3/b.ts"],
    deps := fun f =>
      if f == "/w3/a.ts" then some ["./b"]
      else if f == "/w3/b.ts" then some [] else none,
    testMatch := none, testRegex := none }

/-- Resolver for the invalidation fixture. -/
def invalResolver : DependencyResolver :=
  { resolve := fun f _ => if f == "/w3/a.ts" then .ok ["/w3/b.ts"] else .ok [] }

/-- Environment whose `path.resolve` maps the relative `b.ts` to
`/w3/b.ts` and leaves absolute paths unchanged. -/
def envInval : PathEnv :=
  { resolve := fun s => if s == "b.ts" then "/w3/b.ts" else s,
    packageNameOf := fun _ => none }

/-- The built invalidation-fixture graph, obtained through the public
query path (`findAffectedTests` triggers `buildGraph`). -/
def gInvalBuilt : GlobalDependencyGraph :=
  (GlobalDependencyGraph.findAffectedTests envInval
    (GlobalDependencyGraph.addProject envInval .empty ctxInval invalResolver) []).1

/-- The invalidation-fixture graph after `invalidateFiles(['b.ts'])`. -/
def gInvalAfter : GlobalDependencyGraph :=
  GlobalDependencyGraph.invalidateFiles envInval gInvalBuilt ["b.ts"]

/-- Environment for the two-project package fixture: both roots have
`package.json` names. -/
def envPkg : PathEnv :=
  { resolve := fun s => s,
    packageNameOf := fun root =>
      if root == "/app" then some "app"
      else if root == "/b" then some "pkg-b" else none }

/-- The `app` project: `index.ts` raw-imports `pkg-b` and `./util`; its
resolver resolves only the relative specifier. -/
def ctxApp : ProjectContext :=
  { ctxId := 3, rootDir := "/app", skipNodeResolution := false,
    files := ["/app/index.ts", "/app/util.ts"],
    deps := fun f =>
      if f == "/app/index.ts" then some ["pkg-b", "./util"]
      else if f == "/app/util.ts" then some [] else none,
    testMatch := none, testRegex := none }

/-- Resolver of the `app` project (does not resolve package names). -/
def appResolver : DependencyResolver :=
  { resolve := fun f _ => if f == "/app/index.ts" then .ok ["/app/util.ts"] else .ok [] }

/-- The `pkg-b` project. -/
def ctxPkgB : ProjectContext :=
  { ctxId := 4, rootDir := "/b", skipNodeResolution := false,
    files := ["/b/src.ts"],
    deps := fun f => if f == "/b/src.ts" then some [] else none,
    testMatch := none, testRegex := none }

/-- The two-project workspace graph with real (raw) cross-project imports
but a resolver that never resolves package-name specifiers. -/
def gTwoPkg : GlobalDependencyGraph :=
  GlobalDependencyGraph.addProject envPkg
    (GlobalDependencyGraph.addProject envPkg .empty ctxApp appResolver)
    ctxPkgB emptyResolver

/-- Environment for the resolver-equivalence counterexample. -/
def envWs : PathEnv :=
  { resolve := fun s => s,
    packageNameOf := fun root =>
      if root == "/t" then some "t-pkg"
      else if root == "/b5" then some "pkg-b" else none }

/-- Target project of the counterexample workspace: `f.ts` raw-imports
`pkg-b` but its resolver resolves nothing. -/
def ctxT : ProjectContext :=
  { ctxId := 5, rootDir := "/t", skipNodeResolution := false,
    files := ["/t/f.ts"],
    deps := fun f => if f == "/t/f.ts" then some ["pkg-b"] else none,
    testMatch := none, testRegex := none }

/-- The changed project `pkg-b` of the counterexample workspace. -/
def ctxB5 : ProjectContext :=
  { ctxId := 6, rootDir := "/b5", skipNodeResolution := false,
    files := ["/b5/u.ts"],
    deps := fun f => if f == "/b5/u.ts" then some [] else none,
    testMatch := none, testRegex := none }

/-- The counterexample workspace for the resolver equivalence. -/
def projectsWs : List WorkspaceProject :=
  wdrAddProject envWs (wdrAddProject envWs [] ctxT emptyResolver) ctxB5 emptyResolver

/-- Environment for the resolver-equivalence witness workspace. -/
def envWs6 : PathEnv :=
  { resolve := fun s => s,
    packageNameOf := fun root => if root == "/o6" then some "o6-pkg" else none }

/-- Witness target project: one file with a plain relative import that
resolves into the other project's tree. -/
def ctxT6 : ProjectContext :=
  { ctxId := 7, rootDir := "/t6", skipNodeResolution := false,
    files := ["/t6/x.ts"],
    deps := fun f => if f == "/t6/x.ts" then some ["../o6/y"] else none,
    testMatch := none, testRegex := none }

/-- Resolver of the witness target project. -/
def t6Resolver : DependencyResolver :=
  { resolve := fun f _ => if f == "/t6/x.ts" then .ok ["/o6/y.ts"] else .ok [] }

/-- The other project of the witness workspace. -/
def ctxO6 : ProjectContext :=
  { ctxId := 8, rootDir := "/o6", skipNodeResolution := false,
    files := ["/o6/y.ts"],
    deps := fun f => if f == "/o6/y.ts" then some [] else none,
    testMatch := none, testRegex := none }

/-- The witness workspace for the amended resolver equivalence. -/
def projectsWs6 : List WorkspaceProject :=
  wdrAddProject envWs6 (wdrAddProject envWs6 [] ctxT6 t6Resolver) ctxO6 emptyResolver

/-- Error fixture: one project whose resolver always throws. -/
def ctxThrow : ProjectContext :=
  { ctxId := 9, rootDir := "/t7", skipNodeResolution := false,
    files := ["/t7/a.ts"],
    deps := fun f => if f == "/t7/a.ts" then some ["x"] else none,
    testMatch := none, testRegex := none }

/-- The error-fixture graph. -/
def gThrow : GlobalDependencyGraph :=
  GlobalDependencyGraph.addProject envId .empty ctxThrow throwingResolver

/-- The error-fixture workspace for the resolver classes. -/
def projectsThrow : List WorkspaceProject :=
  wdrAddProject envId [] ctxThrow throwingResolver

/-- Glob fixture context: a single `testMatch` glob pattern. -/
def ctxGlob : ProjectContext :=
  { ctxId := 10, rootDir := "/w9", skipNodeResolution := false,
    files := [], deps := fun _ => none,
    testMatch := some ["**/*.test.ts"], testRegex := none }

/-! ## Theorems -/

/-- Membership in a JavaScript-set add. -/
theorem mem_setAdd {l : List String} {x y : String} :
    y ∈ setAdd l x ↔ y ∈ l ∨ y = x := by
  unfold setAdd
  by_cases hx : x ∈ l
  · simp only [if_pos hx]
    constructor
    · exact Or.inl
    · rintro (h | rfl)
      · exact h
      · exact hx
  · simp [if_neg hx]

/-- A set add preserves duplicate-freedom. -/
theorem setAdd_nodup {l : List String} {x : String} (h : l.Nodup) :
    (setAdd l x).Nodup := by
  unfold setAdd
  by_cases hx : x ∈ l
  · simpa [if_pos hx]
  · simp only [if_neg hx, List.nodup_append, List.nodup_singleton]
    simpa using ⟨h, hx⟩

/-- A found node's `file` field equals the looked-up key. -/
theorem storeGet_file {objs : List ModuleNode} {f : String} {n : ModuleNode}
    (h : storeGet objs f = some n) : n.file = f := by
  have hp := List.find?_some h
  simpa using hp

/-- A found node is a heap member. -/
theorem storeGet_mem {objs : List ModuleNode} {f : String} {n : ModuleNode}
    (h : storeGet objs f = some n) : n ∈ objs :=
  List.mem_of_find?_eq_some h

/-- C7.  `buildGraph` is idempotent and lazy: a second call without an
intervening `addProject` or invalidation returns the entire graph state
unchanged — the node table, every edge set, and the recorded counters
(total modules, total edges, cross-project edges) are those of the first
call, so no edge is duplicated and no module is counted twice. -/
theorem buildGraph_idempotent (g : GlobalDependencyGraph) :
    GlobalDependencyGraph.buildGraph (GlobalDependencyGraph.buildGraph g) =
      GlobalDependencyGraph.buildGraph g := by
  by_cases h : g.isGraphBuilt
  · simp [GlobalDependencyGraph.buildGraph, h]
  · have hb : (GlobalDependencyGraph.buildGraph g).isGraphBuilt = true := by
      simp [GlobalDependencyGraph.buildGraph, h]
    conv_lhs => rw [GlobalDependencyGraph.buildGraph]
    rw [if_pos hb]

/-- C5.  `resolveCrossProjectDependencies` is inert: it returns the graph
state unchanged for every source node and raw-dependency list (first
conjunct); on the two-package fixture it does detect the `pkg-b` raw import
(second conjunct), yet the exported dump of that workspace — whose
resolvers never resolve package-name specifiers — contains zero
cross-project edges (third conjunct). -/
theorem resolveCrossProjectDependencies_inert :
    (∀ (g : GlobalDependencyGraph) (n : ModuleNode) (deps : List String),
        GlobalDependencyGraph.resolveCrossProjectDependencies g n deps = g) ∧
    GlobalDependencyGraph.crossProjectDependencyMatches gTwoPkg.packageToProject ["pkg-b", "./util"] =
      [("pkg-b", "pkg-b")] ∧
    (GlobalDependencyGraph.exportGraph gTwoPkg).2.2.filter (fun e => e.crossProject) = [] := by
  refine ⟨fun g n deps => rfl, by decide, by decide⟩

/-- C2.  The mirror invariant holds after the public query path builds the
fixture graph, but the graph state reached by then calling
`invalidateFiles(['b.ts'])` — a path whose `path.resolve` image is
`/w3/b.ts` — violates it: the edge `a.ts → b.ts` is torn down on `a.ts`'s
side while `b.ts`, left in the table because the `Map.delete` uses the
unresolved key, still lists `a.ts` as an importer. -/
theorem mirror_invariant_broken_by_relative_invalidate :
    mirrorInvariantB gInvalBuilt = true ∧ mirrorInvariantB gInvalAfter = false := by
  exact ⟨by decide, by decide⟩

/-- C4.  After `invalidateFiles(['b.ts'])` on the fixture graph the node
for the resolved path `/w3/b.ts` is still present in the node table: the
lookup resolves the path but the deletion uses the raw string. -/
theorem invalidateFiles_leaves_node_in_table :
    (gInvalAfter.tableGet "/w3/b.ts").isSome = true ∧
    "/w3/b.ts" ∈ gInvalAfter.tableKeys := by
  exact ⟨by decide, by decide⟩

/-- C1 counterexample.  On the two-project workspace whose target file
raw-imports `pkg-b` but whose resolver resolves nothing, the naive
resolver reports the file (its mechanism (b) does not re-resolve) while
the reverse-index-optimized resolver confirms candidates by re-resolution
and reports nothing: the two implementations return different sets. -/
theorem reverse_index_optimization_changes_result :
    WorkspaceDependencyResolver.findFilesInProjectDependingOnChangedPaths
      envWs projectsWs ctxT ["/b5/u.ts"] = Except.ok ["/t/f.ts"] ∧
    WorkspaceDependencyResolverOptimized.findFilesInProjectDependingOnChangedPaths
      envWs projectsWs none ctxT ["/b5/u.ts"] = Except.ok [] := by
  exact ⟨rfl, rfl⟩

/-- C8 counterexample.  `findFilesInProjectDependingOnChangedPaths` does
not catch resolver errors: on a workspace whose resolver always throws,
both the naive and the optimized implementation propagate the error to
the caller instead of returning normally. -/
theorem findFiles_propagates_resolver_error :
    WorkspaceDependencyResolver.findFilesInProjectDependingOnChangedPaths
      envId projectsThrow ctxThrow ["/t7/b.ts"] = Except.error () ∧
    WorkspaceDependencyResolverOptimized.findFilesInProjectDependingOnChangedPaths
      envId projectsThrow none ctxThrow ["/t7/b.ts"] = Except.error () := by
  exact ⟨rfl, rfl⟩

/-- C9 counterexample.  With the configured glob `**/*.test.ts` the file
`/index.test.ts` matches under the conversion the specification describes
(`**` matching any characters including separators), yet `isTestFile`
classifies it as not a test: the code's sequential replacements turn `**`
into a regex that cannot cross a separator it does not precede by one
extra character. -/
theorem glob_double_star_not_spec_semantics :
    reSearch (claimGlobTokens ("**/*.test.ts").toList) ("/index.test.ts").toList = true ∧
    GlobalDependencyGraph.isTestFile "/index.test.ts" ctxGlob = false := by
  exact ⟨by decide, by decide⟩

/-- Conditional equation: the first replacement leaves a non-star head. -/
theorem replaceDoubleStar_cons_ne {c : Char} {cs : List Char} (hc : c ≠ '*') :
    replaceDoubleStar (c :: cs) = c :: replaceDoubleStar cs := by
  rw [replaceDoubleStar.eq_def]
  split
  · simp_all
  · rename_i h; simp at h; exact absurd h.1 hc
  · rename_i c' rest' _ heq
    injection heq with h1 h2
    subst h1; subst h2; rfl

/-- Conditional equation: a single star (not followed by another) passes
the first replacement unchanged. -/
theorem replaceDoubleStar_star_nostar {cs : List Char} (h : ∀ rest, cs ≠ '*' :: rest) :
    replaceDoubleStar ('*' :: cs) = '*' :: replaceDoubleStar cs := by
  rw [replaceDoubleStar.eq_def]
  split
  · simp_all
  · rename_i rest heq
    injection heq with h1 h2
    exact absurd h2 (h rest)
  · rename_i c' rest' _ heq
    injection heq with h1 h2
    subst h1; subst h2; rfl

/-- Conditional equation for the second replacement. -/
theorem replaceSingleStar_cons_ne {c : Char} {cs : List Char} (hc : c ≠ '*') :
    replaceSingleStar (c :: cs) = c :: replaceSingleStar cs := by
  rw [replaceSingleStar.eq_def]
  split
  · simp_all
  · rename_i h; simp at h; exact absurd h.1 hc
  · rename_i c' rest' _ heq
    injection heq with h1 h2
    subst h1; subst h2; rfl

/-- Conditional equation for the third replacement. -/
theorem replaceQuestion_cons_ne {c : Char} {cs : List Char} (hc : c ≠ '?') :
    replaceQuestion (c :: cs) = c :: replaceQuestion cs := by
  rw [replaceQuestion.eq_def]
  split
  · simp_all
  · rename_i h; simp at h; exact absurd h.1 hc
  · rename_i c' rest' _ heq
    injection heq with h1 h2
    subst h1; subst h2; rfl

/-- After the second and third replacements the string never starts with a
star: every `*` the pipeline emits is preceded by the class `[^/]`. -/
theorem pipeline_not_star (cs : List Char) :
    ∀ r, replaceQuestion (replaceSingleStar cs) ≠ '*' :: r := by
  intro r
  cases cs with
  | nil => simp [replaceSingleStar, replaceQuestion]
  | cons c rest =>
    by_cases hc : c = '*'
    · subst hc
      rw [show replaceSingleStar ('*' :: rest) =
          '[' :: '^' :: '/' :: ']' :: '*' :: replaceSingleStar rest from rfl]
      rw [replaceQuestion_cons_ne (by decide)]
      intro heq; injection heq with h1 _; exact absurd h1 (by decide)
    · rw [replaceSingleStar_cons_ne hc]
      by_cases hq : c = '?'
      · subst hq
        rw [show replaceQuestion ('?' :: replaceSingleStar rest) =
            '.' :: replaceQuestion (replaceSingleStar rest) from rfl]
        intro heq; injection heq with h1 _; exact absurd h1 (by decide)
      · rw [replaceQuestion_cons_ne hq]
        intro heq; injection heq with h1 _; exact hc h1

/-- Conditional equation: parsing a dot whose continuation does not start
with a star yields an any-character token. -/
theorem parseRegex_dot {rest : List Char} (h : ∀ r, rest ≠ '*' :: r) :
    parseRegex ('.' :: rest) = .anyChar :: parseRegex rest := by
  rw [parseRegex.eq_def]
  split <;> simp_all
  rename_i hcls hesc hdot hstar heq
  exact hdot heq.1.symm

/-- Conditional equation: parsing a plain literal character. -/
theorem parseRegex_lit {c : Char} {rest : List Char} (hc1 : c ≠ '[') (hc2 : c ≠ '\\')
    (hc3 : c ≠ '.') (h : ∀ r, rest ≠ '*' :: r) :
    parseRegex (c :: rest) = .lit c :: parseRegex rest := by
  rw [parseRegex.eq_def]
  split <;> simp_all

/-- Conditional equation for `compileGlob` on a plain character. -/
theorem compileGlob_cons_ne {c : Char} {rest : List Char} (h1 : c ≠ '*') (h2 : c ≠ '?')
    (h3 : c ≠ '.') : compileGlob (c :: rest) = .lit c :: compileGlob rest := by
  rw [compileGlob.eq_def]
  split
  · simp_all
  · rename_i heq; rw [List.cons_eq_cons] at heq; exact absurd heq.1 h1
  · rename_i heq; rw [List.cons_eq_cons] at heq; exact absurd heq.1 h1
  · rename_i heq; rw [List.cons_eq_cons] at heq; exact absurd heq.1 h2
  · rename_i heq; rw [List.cons_eq_cons] at heq; exact absurd heq.1 h3
  · rename_i c' rest' _ _ _ _ heq
    rw [List.cons_eq_cons] at heq
    rw [heq.1, heq.2]

/-- Conditional equation for `compileGlob` on a lone star. -/
theorem compileGlob_star_nostar {rest : List Char} (h : ∀ r, rest ≠ '*' :: r) :
    compileGlob ('*' :: rest) = .star .nonSlash :: compileGlob rest := by
  rw [compileGlob.eq_def]
  split
  · simp_all
  · rename_i heq; rw [List.cons_eq_cons] at heq; exact absurd heq.2 (h _)
  · rename_i heq; rw [List.cons_eq_cons] at heq; rw [heq.2]
  · rename_i heq; rw [List.cons_eq_cons] at heq; exact absurd heq.1 (by decide)
  · rename_i heq; rw [List.cons_eq_cons] at heq; exact absurd heq.1 (by decide)
  · rename_i c' rest' hds hstar hq hdot heq
    rw [List.cons_eq_cons] at heq
    exact absurd heq.1.symm (fun hh => hstar hh)

/-- The replacement pipeline of `convertGlobToRegex`, parsed back as a
regex, denotes exactly the `compileGlob` token list on patterns over the
plain glob alphabet. -/
theorem convertGlob_tokens (cs : List Char) :
    cs.all allowedGlobChar = true →
    parseRegex (replaceQuestion (replaceSingleStar (replaceDoubleStar cs))) = compileGlob cs := by
  induction cs using compileGlob.induct with
  | case1 => intro _; rfl
  | case2 rest ih =>
    intro hall
    have hrest : rest.all allowedGlobChar = true := by simp_all [List.all_cons]
    rw [show replaceDoubleStar ('*' :: '*' :: rest) = '.' :: '*' :: replaceDoubleStar rest from rfl]
    rw [replaceSingleStar_cons_ne (by decide)]
    rw [show replaceSingleStar ('*' :: replaceDoubleStar rest) =
        '[' :: '^' :: '/' :: ']' :: '*' :: replaceSingleStar (replaceDoubleStar rest) from rfl]
    rw [replaceQuestion_cons_ne (by decide), replaceQuestion_cons_ne (by decide),
        replaceQuestion_cons_ne (by decide), replaceQuestion_cons_ne (by decide),
        replaceQuestion_cons_ne (by decide), replaceQuestion_cons_ne (by decide)]
    rw [parseRegex_dot (by intro r heq; injection heq with h1 _; exact absurd h1 (by decide))]
    rw [show parseRegex ('[' :: '^' :: '/' :: ']' :: '*' ::
        replaceQuestion (replaceSingleStar (replaceDoubleStar rest))) =
        .star .nonSlash :: parseRegex (replaceQuestion (replaceSingleStar (replaceDoubleStar rest)))
        from rfl]
    rw [ih hrest]
    rfl
  | case3 rest hno ih =>
    intro hall
    have hrest : rest.all allowedGlobChar = true := by simp_all [List.all_cons]
    rw [replaceDoubleStar_star_nostar (fun r heq => hno r heq)]
    rw [show replaceSingleStar ('*' :: replaceDoubleStar rest) =
        '[' :: '^' :: '/' :: ']' :: '*' :: replaceSingleStar (replaceDoubleStar rest) from rfl]
    rw [replaceQuestion_cons_ne (by decide), replaceQuestion_cons_ne (by decide),
        replaceQuestion_cons_ne (by decide), replaceQuestion_cons_ne (by decide),
        replaceQuestion_cons_ne (by decide)]
    rw [show parseRegex ('[' :: '^' :: '/' :: ']' :: '*' ::
        replaceQuestion (replaceSingleStar (replaceDoubleStar rest))) =
        .star .nonSlash :: parseRegex (replaceQuestion (replaceSingleStar (replaceDoubleStar rest)))
        from rfl]
    rw [ih hrest]
    exact (compileGlob_star_nostar (fun r heq => hno r heq)).symm
  | case4 rest ih =>
    intro hall
    have hrest : rest.all allowedGlobChar = true := by simp_all [List.all_cons]
    rw [replaceDoubleStar_cons_ne (by decide)]
    rw [replaceSingleStar_cons_ne (by decide)]
    rw [show replaceQuestion ('?' :: replaceSingleStar (replaceDoubleStar rest)) =
        '.' :: replaceQuestion (replaceSingleStar (replaceDoubleStar rest)) from rfl]
    rw [parseRegex_dot (pipeline_not_star (replaceDoubleStar rest))]
    rw [ih hrest]
    rfl
  | case5 rest ih =>
    intro hall
    have hrest : rest.all allowedGlobChar = true := by simp_all [List.all_cons]
    rw [replaceDoubleStar_cons_ne (by decide)]
    rw [replaceSingleStar_cons_ne (by decide)]
    rw [replaceQuestion_cons_ne (by decide)]
    rw [parseRegex_dot (pipeline_not_star (replaceDoubleStar rest))]
    rw [ih hrest]
    rfl
  | case6 c rest hns h2 h3 h4 ih =>
    intro hall
    have hrest : rest.all allowedGlobChar = true := by
      rw [List.all_cons, Bool.and_eq_true] at hall
      exact hall.2
    have hallc : allowedGlobChar c = true := by
      rw [List.all_cons, Bool.and_eq_true] at hall
      exact hall.1
    have hcstar : c ≠ '*' := fun h => h2 h
    have hcq : c ≠ '?' := fun h => h3 h
    have hcdot : c ≠ '.' := fun h => h4 h
    have hcbr : c ≠ '[' := by
      intro h; subst h; simp [allowedGlobChar] at hallc
    have hcbs : c ≠ '\\' := by
      intro h; subst h; simp [allowedGlobChar] at hallc
    rw [replaceDoubleStar_cons_ne hcstar]
    rw [replaceSingleStar_cons_ne hcstar]
    rw [replaceQuestion_cons_ne hcq]
    rw [parseRegex_lit hcbr hcbs hcdot (pipeline_not_star (replaceDoubleStar rest))]
    rw [ih hrest]
    exact (compileGlob_cons_ne hcstar hcq hcdot).symm

/-- C9 (amended).  The glob conversion is a sequential textual
replacement whose second step also rewrites the `*` inside the `.*`
produced for `**`, so on patterns over the plain glob alphabet the
generated regex denotes: `**` — one arbitrary character followed by any
run of non-separator characters; `*` — any run of non-separator
characters; `?` — exactly one character; matching is unanchored (first
conjunct, stated as token-level equality with `compileGlob`).  With glob
patterns configured `isTestFile` tests the file against those converted
patterns (second conjunct); with only regex patterns configured it tests
the regexes (third conjunct); with neither, no file is ever a test
(fourth conjunct). -/
theorem convertGlobToRegex_sequential_replacement_semantics :
    (∀ (pattern : String), pattern.toList.all allowedGlobChar = true →
        parseRegex (convertGlobToRegex pattern).toList = compileGlob pattern.toList) ∧
    (∀ (file : String) (ctx : ProjectContext) (patterns : List String),
        ctx.testMatch = some patterns →
        (∀ p ∈ patterns, p.toList.all allowedGlobChar = true) →
        GlobalDependencyGraph.isTestFile file ctx =
          patterns.any (fun p => reSearch (compileGlob p.toList) file.toList)) ∧
    (∀ (file : String) (ctx : ProjectContext) (patterns : List String),
        ctx.testMatch = none → ctx.testRegex = some patterns →
        GlobalDependencyGraph.isTestFile file ctx =
          patterns.any (fun p => regexTest p file)) ∧
    (∀ (file : String) (ctx : ProjectContext),
        ctx.testMatch = none → ctx.testRegex = none →
        GlobalDependencyGraph.isTestFile file ctx = false) := by
  have htok : ∀ (pattern : String), pattern.toList.all allowedGlobChar = true →
      parseRegex (convertGlobToRegex pattern).toList = compileGlob pattern.toList := by
    intro pattern h
    have he : (convertGlobToRegex pattern).toList =
        replaceQuestion (replaceSingleStar (replaceDoubleStar pattern.toList)) := rfl
    rw [he]
    exact convertGlob_tokens pattern.toList h
  refine ⟨htok, ?_, ?_, ?_⟩
  · intro file ctx patterns hm hall
    have hany : ∀ (ps : List String), (∀ p ∈ ps, p.toList.all allowedGlobChar = true) →
        ps.any (fun pattern => regexTest (convertGlobToRegex pattern) file) =
          ps.any (fun p => reSearch (compileGlob p.toList) file.toList) := by
      intro ps
      induction ps with
      | nil => intro _; rfl
      | cons p ps ih =>
        intro hall2
        simp only [List.any_cons]
        rw [ih (fun q hq => hall2 q (List.mem_cons_of_mem p hq))]
        unfold regexTest
        rw [htok p (hall2 p (List.mem_cons_self p ps))]
    unfold GlobalDependencyGraph.isTestFile
    rw [hm]
    exact hany patterns hall
  · intro file ctx patterns hm hr
    unfold GlobalDependencyGraph.isTestFile
    rw [hm, hr]
  · intro file ctx hm hr
    unfold GlobalDependencyGraph.isTestFile
    rw [hm, hr]

/-- C9 witness: the converted `**/*.test.ts` pattern denotes the
`compileGlob` tokens, and `isTestFile` on a nested test file agrees with
the compiled-token search (which accepts it). -/
theorem convertGlobToRegex_sequential_replacement_semantics_witness :
    parseRegex (convertGlobToRegex "**/*.test.ts").toList =
      compileGlob ("**/*.test.ts").toList ∧
    GlobalDependencyGraph.isTestFile "/w/x/y.test.ts" ctxGlob =
      (["**/*.test.ts"].any
        (fun p => reSearch (compileGlob p.toList) ("/w/x/y.test.ts").toList)) ∧
    GlobalDependencyGraph.isTestFile "/w/x/y.test.ts" ctxGlob = true := by
  refine ⟨?_, ?_, by decide⟩
  · exact convertGlobToRegex_sequential_replacement_semantics.1 "**/*.test.ts" (by decide)
  · exact convertGlobToRegex_sequential_replacement_semantics.2.1 "/w/x/y.test.ts" ctxGlob
      ["**/*.test.ts"] rfl
      (by intro p hp; rw [List.mem_singleton] at hp; subst hp; decide)

/-- Adding an element already present leaves a JavaScript set unchanged. -/
theorem setAdd_of_mem {l : List String} {x : String} (h : x ∈ l) : setAdd l x = l := by
  simp [setAdd, h]

/-- The value component of an `enum` member is a list member. -/
theorem snd_mem_of_mem_enum {α : Type} {l : List α} {ip : Nat × α} (h : ip ∈ l.enum) :
    ip.2 ∈ l := by
  rw [List.mem_enum_iff_getElem?] at h
  exact List.getElem?_mem h

/-- `Map.set` preserves a predicate on all stored values when the new value
satisfies it. -/
theorem assocSet_values {α : Type} (P : α → Prop) {m : List (String × α)} {k : String}
    {v : α} (hm : ∀ e ∈ m, P e.2) (hv : P v) :
    ∀ e ∈ assocSet m k v, P e.2 := by
  intro e he
  unfold assocSet at he
  by_cases hk : m.any (fun p => p.1 == k) = true
  · rw [if_pos hk] at he
    rcases List.mem_map.mp he with ⟨e', he', heq⟩
    by_cases h2 : (e'.1 == k) = true
    · rw [if_pos h2] at heq; subst heq; exact hv
    · rw [if_neg h2] at heq; subst heq; exact hm e' he'
  · rw [if_neg hk] at he
    rcases List.mem_append.mp he with h | h
    · exact hm e h
    · rw [List.mem_singleton] at h; subst h; exact hv

/-- `Map.set` makes its key present. -/
theorem assocSet_key_present {α : Type} {m : List (String × α)} {k : String} {v : α} :
    ∃ e ∈ assocSet m k v, e.1 = k := by
  unfold assocSet
  by_cases hk : m.any (fun p => p.1 == k) = true
  · rw [if_pos hk]
    rcases List.any_eq_true.mp hk with ⟨e, he, hek⟩
    refine ⟨(k, v), List.mem_map.mpr ⟨e, he, ?_⟩, rfl⟩
    rw [if_pos hek]
  · rw [if_neg hk]
    exact ⟨(k, v), List.mem_append.mpr (Or.inr (List.mem_singleton.mpr rfl)), rfl⟩

/-- `Map.set` keeps every previously present key present. -/
theorem assocSet_key_preserved {α : Type} {m : List (String × α)} {k k' : String} {v : α}
    (h : ∃ e ∈ m, e.1 = k) : ∃ e ∈ assocSet m k' v, e.1 = k := by
  rcases h with ⟨e, he, hek⟩
  unfold assocSet
  by_cases hk : m.any (fun p => p.1 == k') = true
  · rw [if_pos hk]
    by_cases h2 : (e.1 == k') = true
    · refine ⟨(k', v), List.mem_map.mpr ⟨e, he, ?_⟩, ?_⟩
      · rw [if_pos h2]
      · have : e.1 = k' := by simpa using h2
        rw [← this, hek]
    · refine ⟨e, List.mem_map.mpr ⟨e, he, ?_⟩, hek⟩
      rw [if_neg h2]
  · rw [if_neg hk]
    exact ⟨e, List.mem_append.mpr (Or.inl he), hek⟩

/-- A key that is present with all values satisfying `P` is found by
`Map.get` with a value satisfying `P`. -/
theorem assocGet_of_present {α : Type} (P : α → Prop) {m : List (String × α)} {k : String}
    (hvals : ∀ e ∈ m, P e.2) (hkey : ∃ e ∈ m, e.1 = k) :
    ∃ v, assocGet m k = some v ∧ P v := by
  rcases hkey with ⟨e, he, hek⟩
  unfold assocGet
  have hsome : (m.find? (fun p => p.1 == k)).isSome = true := by
    rw [List.find?_isSome]
    exact ⟨e, he, by simpa using hek⟩
  cases hf : m.find? (fun p => p.1 == k) with
  | none => rw [hf] at hsome; simp at hsome
  | some pr =>
    exact ⟨pr.2, rfl, hvals pr (List.mem_of_find?_eq_some hf)⟩

/-- Names collected by `otherPackages` are package names of registered
projects. -/
theorem otherPackages_names {projects : List WorkspaceProject} {i : Nat} :
    ∀ nm ∈ WorkspaceDependencyResolverOptimized.otherPackages projects i,
      ∃ q ∈ projects, q.name = some nm := by
  unfold WorkspaceDependencyResolverOptimized.otherPackages
  have main : ∀ (L : List (Nat × WorkspaceProject)) (acc : List String),
      (∀ nm ∈ acc, ∃ q ∈ projects, q.name = some nm) →
      (∀ ip ∈ L, ip.2 ∈ projects) →
      ∀ nm ∈ L.foldl (fun s p =>
          match p.2.name with
          | some nm => setAdd s nm
          | none => s) acc,
        ∃ q ∈ projects, q.name = some nm := by
    intro L
    induction L with
    | nil => intro acc hacc _ nm hnm; exact hacc nm hnm
    | cons ip L ih =>
      intro acc hacc hL nm hnm
      simp only [List.foldl_cons] at hnm
      refine ih _ ?_ (fun jp hjp => hL jp (List.mem_cons_of_mem ip hjp)) nm hnm
      intro nm' hnm'
      cases hname : ip.2.name with
      | none => rw [hname] at hnm'; exact hacc nm' hnm'
      | some nm2 =>
        rw [hname] at hnm'
        rcases mem_setAdd.mp hnm' with h | h
        · exact hacc nm' h
        · subst h
          exact ⟨ip.2, hL ip (List.mem_cons_self ip L), hname⟩
  intro nm hnm
  refine main _ [] (by simp) ?_ nm hnm
  intro ip hip
  exact snd_mem_of_mem_enum (List.mem_of_mem_filter hip)

/-- When no raw specifier of the scanned files matches any of the package
names, the reverse index of the project stays empty. -/
theorem indexProjectFiles_empty {ctx : ProjectContext} {pkgs : List String} :
    ∀ (files : List String) (pi : List (String × List String)),
      (∀ f ∈ files, ∀ ds, ctx.deps f = some ds → ∀ d ∈ ds, ∀ nm ∈ pkgs,
        (d == nm || strStartsWith d (nm ++ "/")) = false) →
      WorkspaceDependencyResolverOptimized.indexProjectFiles ctx pkgs files pi = pi := by
  intro files
  induction files with
  | nil => intro pi _; rfl
  | cons f rest ih =>
    intro pi hno
    cases hds : ctx.deps f with
    | none =>
      simp only [WorkspaceDependencyResolverOptimized.indexProjectFiles, hds]
      exact ih pi (fun f' hf' => hno f' (List.mem_cons_of_mem f hf'))
    | some ds =>
      simp only [WorkspaceDependencyResolverOptimized.indexProjectFiles, hds]
      have hpkgfold : ∀ (L : List String) (d : String),
          (∀ nm ∈ L, (d == nm || strStartsWith d (nm ++ "/")) = false) →
          ∀ (pi2 : List (String × List String)),
          L.foldl (fun pi3 packageName =>
            if d == packageName || strStartsWith d (packageName ++ "/")
            then assocAddToSet pi3 packageName f
            else pi3) pi2 = pi2 := by
        intro L
        induction L with
        | nil => intro d _ pi2; rfl
        | cons nm L ihL =>
          intro d hd pi2
          simp only [List.foldl_cons]
          rw [if_neg (by rw [hd nm (List.mem_cons_self nm L)]; simp)]
          exact ihL d (fun nm' h => hd nm' (List.mem_cons_of_mem nm h)) pi2
      have hdsfold : ∀ (D : List String),
          (∀ d ∈ D, ∀ nm ∈ pkgs, (d == nm || strStartsWith d (nm ++ "/")) = false) →
          ∀ (pi2 : List (String × List String)),
          D.foldl (fun pi3 rawDep =>
            pkgs.foldl (fun pi4 packageName =>
              if rawDep == packageName || strStartsWith rawDep (packageName ++ "/")
              then assocAddToSet pi4 packageName f
              else pi4) pi3) pi2 = pi2 := by
        intro D
        induction D with
        | nil => intro _ pi2; rfl
        | cons d D ihD =>
          intro hD pi2
          simp only [List.foldl_cons]
          rw [hpkgfold pkgs d (hD d (List.mem_cons_self d D)) pi2]
          exact ihD (fun d' h => hD d' (List.mem_cons_of_mem d h)) pi2
      have hinner := hdsfold ds (hno f (List.mem_cons_self f rest) ds hds) pi
      rw [hinner]
      exact ih pi (fun f' hf' => hno f' (List.mem_cons_of_mem f hf'))

/-- Under the no-cross-package-import hypothesis the reverse index maps
every registered project root to an empty per-project index. -/
theorem buildReverseIndex_empty {projects : List WorkspaceProject}
    (h3 : ∀ q ∈ projects, ∀ f ∈ q.context.files, ∀ ds, q.context.deps f = some ds →
      ∀ d ∈ ds, ∀ r ∈ projects, ∀ nm, r.name = some nm →
      (d == nm || strStartsWith d (nm ++ "/")) = false)
    {p : WorkspaceProject} (hp : p ∈ projects) :
    assocGet (WorkspaceDependencyResolverOptimized.buildReverseIndex projects) p.rootDir =
      some [] := by
  have hstepval : ∀ (ip : Nat × WorkspaceProject), ip.2 ∈ projects →
      WorkspaceDependencyResolverOptimized.indexProjectFiles ip.2.context
        (WorkspaceDependencyResolverOptimized.otherPackages projects ip.1)
        ip.2.context.files [] = [] := by
    intro ip hip
    apply indexProjectFiles_empty
    intro f hf ds hds d hd nm hnm
    rcases otherPackages_names nm hnm with ⟨r, hr, hrname⟩
    exact h3 ip.2 hip f hf ds hds d hd r hr nm hrname
  have hvals : ∀ e ∈ WorkspaceDependencyResolverOptimized.buildReverseIndex projects,
      e.2 = ([] : List (String × List String)) := by
    unfold WorkspaceDependencyResolverOptimized.buildReverseIndex
    have main : ∀ (L : List (Nat × WorkspaceProject)) (m : List (String × List (String × List String))),
        (∀ ip ∈ L, ip.2 ∈ projects) →
        (∀ e ∈ m, e.2 = ([] : List (String × List String))) →
        ∀ e ∈ L.foldl (fun reverseIndex ip =>
            assocSet reverseIndex ip.2.rootDir
              (WorkspaceDependencyResolverOptimized.indexProjectFiles ip.2.context
                (WorkspaceDependencyResolverOptimized.otherPackages projects ip.1)
                ip.2.context.files [])) m,
          e.2 = ([] : List (String × List String)) := by
      intro L
      induction L with
      | nil => intro m _ hm e he; exact hm e he
      | cons ip L ihL =>
        intro m hL hm e he
        simp only [List.foldl_cons] at he
        refine ihL _ (fun jp hjp => hL jp (List.mem_cons_of_mem ip hjp)) ?_ e he
        refine assocSet_values (fun x => x = ([] : List (String × List String))) hm ?_
        exact hstepval ip (hL ip (List.mem_cons_self ip L))
    intro e he
    refine main projects.enum [] ?_ (by simp) e he
    intro ip hip
    exact snd_mem_of_mem_enum hip
  have hkey : ∃ e ∈ WorkspaceDependencyResolverOptimized.buildReverseIndex projects,
      e.1 = p.rootDir := by
    unfold WorkspaceDependencyResolverOptimized.buildReverseIndex
    have main : ∀ (L : List (Nat × WorkspaceProject)) (m : List (String × List (String × List String))),
        ((∃ ip ∈ L, ip.2.rootDir = p.rootDir) ∨ (∃ e ∈ m, e.1 = p.rootDir)) →
        ∃ e ∈ L.foldl (fun reverseIndex ip =>
            assocSet reverseIndex ip.2.rootDir
              (WorkspaceDependencyResolverOptimized.indexProjectFiles ip.2.context
                (WorkspaceDependencyResolverOptimized.otherPackages projects ip.1)
                ip.2.context.files [])) m,
          e.1 = p.rootDir := by
      intro L
      induction L with
      | nil =>
        intro m h
        rcases h with ⟨ip, hip, _⟩ | h
        · cases hip
        · exact h
      | cons ip L ihL =>
        intro m h
        simp only [List.foldl_cons]
        apply ihL
        rcases h with ⟨ip', hip', heq⟩ | h
        · rcases List.mem_cons.mp hip' with rfl | hip''
          · right
            rcases (assocSet_key_present :
                ∃ e ∈ assocSet m ip'.2.rootDir _, e.1 = ip'.2.rootDir) with ⟨e, he, hek⟩
            exact ⟨e, he, by rw [hek, heq]⟩
          · exact Or.inl ⟨ip', hip'', heq⟩
        · exact Or.inr (assocSet_key_preserved h)
    apply main
    left
    rcases List.mem_iff_getElem?.mp hp with ⟨i, hi⟩
    exact ⟨(i, p), List.mem_enum_iff_getElem?.mpr (by simpa using hi), rfl⟩
  rcases assocGet_of_present (fun x => x = ([] : List (String × List String))) hvals hkey with ⟨v, hv, hPv⟩
  rw [hv, hPv]

/-- With an empty per-project index the cross-project phase adds nothing
and cannot fail. -/
theorem crossProjectLoop_empty_index {tp : WorkspaceProject} {tc : ProjectContext}
    {projects : List WorkspaceProject} :
    ∀ (entries : List (String × List String)) (acc : List String),
      WorkspaceDependencyResolverOptimized.crossProjectLoop tp tc projects [] entries acc =
        Except.ok acc := by
  intro entries
  induction entries with
  | nil => intro acc; rfl
  | cons e rest ih =>
    intro acc
    cases hfq : projects.find? (fun p => p.rootDir == e.1) with
    | none =>
      simp only [WorkspaceDependencyResolverOptimized.crossProjectLoop, hfq]
      exact ih acc
    | some q =>
      cases hname : q.name with
      | none =>
        simp only [WorkspaceDependencyResolverOptimized.crossProjectLoop, hfq, hname]
        exact ih acc
      | some nm =>
        simp only [WorkspaceDependencyResolverOptimized.crossProjectLoop, hfq, hname,
          assocGet, List.find?_nil, Option.map_none']
        exact ih acc

/-- Bridge: under present raw-dependency data, a never-throwing resolver
and a never-firing package-name heuristic, the naive per-file loop
computes exactly the optimized direct-dependency scan. -/
theorem fileLoop_eq_directScanLoop {p : WorkspaceProject} {tc : ProjectContext}
    {other : List (String × WorkspaceProject)} {cpa : List String} :
    ∀ (files acc : List String),
      (∀ f ∈ files, tc.deps f ≠ none) →
      (∀ f ∈ files, ∃ l, p.dependencyResolver.resolve f tc.skipNodeResolution = Except.ok l) →
      (∀ f ∈ files, ∀ ds, tc.deps f = some ds →
        ds.any (fun rawDep => other.any (fun pr =>
          (match pr.2.name with
           | some nm => rawDep == nm || strStartsWith rawDep (nm ++ "/")
           | none => false) &&
          cpa.any (fun changedPath =>
            strStartsWith (normalizePosix changedPath) (normalizePosix pr.1 ++ "/") ||
            normalizePosix changedPath == normalizePosix pr.1))) = false) →
      WorkspaceDependencyResolver.fileLoop p tc other cpa files acc =
        WorkspaceDependencyResolverOptimized.directScanLoop p tc cpa files acc := by
  intro files
  induction files with
  | nil => intro acc _ _ _; rfl
  | cons f rest ih =>
    intro acc hdeps hok hraw
    have hdeps' := hdeps f (List.mem_cons_self f rest)
    cases hds : tc.deps f with
    | none => exact absurd hds hdeps'
    | some ds =>
      rcases hok f (List.mem_cons_self f rest) with ⟨l, hl⟩
      have hrawf := hraw f (List.mem_cons_self f rest) ds hds
      by_cases hc : acc.contains f = true
      · have hfacc : f ∈ acc := by simpa using hc
        have hacc1 : (if cpa.any (fun changedPath => l.contains changedPath) = true
            then setAdd acc f else acc) = acc := by
          by_cases hhit : cpa.any (fun changedPath => l.contains changedPath) = true
          · rw [if_pos hhit, setAdd_of_mem hfacc]
          · rw [if_neg hhit]
        simp only [WorkspaceDependencyResolver.fileLoop, hds, hl, hrawf,
          WorkspaceDependencyResolverOptimized.directScanLoop, hacc1, hc, if_true,
          Bool.false_eq_true, if_false, ite_self]
        exact ih acc (fun f' hf' => hdeps f' (List.mem_cons_of_mem f hf'))
          (fun f' hf' => hok f' (List.mem_cons_of_mem f hf'))
          (fun f' hf' => hraw f' (List.mem_cons_of_mem f hf'))
      · have hc' : acc.contains f = false := by simpa using hc
        simp only [WorkspaceDependencyResolver.fileLoop, hds, hl, hrawf,
          WorkspaceDependencyResolverOptimized.directScanLoop, hc',
          Bool.false_eq_true, if_false, ite_self]
        exact ih _ (fun f' hf' => hdeps f' (List.mem_cons_of_mem f hf'))
          (fun f' hf' => hok f' (List.mem_cons_of_mem f hf'))
          (fun f' hf' => hraw f' (List.mem_cons_of_mem f hf'))

/-- Values stored in the naive resolver's root-indexed project map are
registered projects. -/
theorem otherProjectsByRoot_values {projects : List WorkspaceProject} :
    ∀ (L : List WorkspaceProject) (m : List (String × WorkspaceProject)),
      (∀ q ∈ L, q ∈ projects) → (∀ pr ∈ m, pr.2 ∈ projects) →
      ∀ pr ∈ L.foldl (fun m project =>
          match project.name with
          | some _ => assocSet m project.rootDir project
          | none => m) m,
        pr.2 ∈ projects := by
  intro L
  induction L with
  | nil => intro m _ hm pr hpr; exact hm pr hpr
  | cons q L ihL =>
    intro m hL hm pr hpr
    simp only [List.foldl_cons] at hpr
    refine ihL _ (fun q' h => hL q' (List.mem_cons_of_mem q h)) ?_ pr hpr
    cases hname : q.name with
    | none => simpa using hm
    | some nm =>
      exact assocSet_values (fun x => x ∈ projects) hm (hL q (List.mem_cons_self q L))

/-- C1 (amended).  The naive and the reverse-index-optimized
`findFilesInProjectDependingOnChangedPaths` agree whenever (i) every
project whose context is the target context really is the target context
record, (ii) every target-project file has raw-dependency data, (iii) the
target project's resolver returns normally on every target file, and (iv)
no file of any registered project raw-imports a specifier equal to or
path-prefixed by a registered project's package name.  (Without (ii) and
(iv) the two differ — see the counterexample — because the naive
mechanism (b) adds files without re-resolving and the naive scan skips
files lacking raw-dependency data.) -/
theorem workspace_resolvers_agree_without_cross_package_imports
    (env : PathEnv) (projects : List WorkspaceProject) (targetContext : ProjectContext)
    (changedPaths : List String)
    (hctx : ∀ p ∈ projects, p.context.ctxId = targetContext.ctxId → p.context = targetContext)
    (h1 : ∀ f ∈ targetContext.files, targetContext.deps f ≠ none)
    (h2 : ∀ p ∈ projects, p.context.ctxId = targetContext.ctxId →
      ∀ f ∈ targetContext.files, ∃ l,
        p.dependencyResolver.resolve f targetContext.skipNodeResolution = Except.ok l)
    (h3 : ∀ q ∈ projects, ∀ f ∈ q.context.files, ∀ ds, q.context.deps f = some ds →
      ∀ d ∈ ds, ∀ r ∈ projects, ∀ nm, r.name = some nm →
      (d == nm || strStartsWith d (nm ++ "/")) = false) :
    WorkspaceDependencyResolver.findFilesInProjectDependingOnChangedPaths
        env projects targetContext changedPaths =
      WorkspaceDependencyResolverOptimized.findFilesInProjectDependingOnChangedPaths
        env projects none targetContext changedPaths := by
  unfold WorkspaceDependencyResolver.findFilesInProjectDependingOnChangedPaths
    WorkspaceDependencyResolverOptimized.findFilesInProjectDependingOnChangedPaths
  cases hfind : projects.enum.find? (fun p => p.2.context.ctxId == targetContext.ctxId) with
  | none => rfl
  | some ip =>
    have hmem : ip.2 ∈ projects := snd_mem_of_mem_enum (List.mem_of_find?_eq_some hfind)
    have hid : ip.2.context.ctxId = targetContext.ctxId := by
      have h := List.find?_some hfind
      simpa using h
    have hctxeq : ip.2.context = targetContext := hctx ip.2 hmem hid
    have hidx := buildReverseIndex_empty h3 hmem
    have hcross := @crossProjectLoop_empty_index ip.2 targetContext projects
      (WorkspaceDependencyResolverOptimized.changedPathsByProject projects ip.1
        (changedPaths.map env.resolve)) []
    simp only [hidx, hcross]
    apply fileLoop_eq_directScanLoop
    · intro f hf; exact h1 f hf
    · intro f hf; exact h2 ip.2 hmem hid f hf
    · intro f hf ds hds
      rw [List.any_eq_false]
      intro d hd
      rw [Bool.not_eq_true, List.any_eq_false]
      intro pr hpr
      have hprmem : pr.2 ∈ projects := by
        refine otherProjectsByRoot_values _ [] ?_ (by simp) pr hpr
        intro q hq
        rcases List.mem_map.mp hq with ⟨jp, hjp, hjq⟩
        rw [← hjq]
        exact snd_mem_of_mem_enum (List.mem_of_mem_filter hjp)
      cases hname : pr.2.name with
      | none => simp [hname]
      | some nm =>
        have hfalse := h3 ip.2 hmem f (by rw [hctxeq]; exact hf) ds
          (by rw [hctxeq]; exact hds) d hd pr.2 hprmem nm hname
        simp [hname, hfalse]

/-- C1 witness: on the two-project workspace with only an ordinary
resolved dependency into the other project's tree, the amended hypotheses
hold, the two resolvers agree, and the common result is nonempty. -/
theorem workspace_resolvers_agree_without_cross_package_imports_witness :
    WorkspaceDependencyResolver.findFilesInProjectDependingOnChangedPaths
        envWs6 projectsWs6 ctxT6 ["/o6/y.ts"] =
      WorkspaceDependencyResolverOptimized.findFilesInProjectDependingOnChangedPaths
        envWs6 projectsWs6 none ctxT6 ["/o6/y.ts"] ∧
    WorkspaceDependencyResolver.findFilesInProjectDependingOnChangedPaths
        envWs6 projectsWs6 ctxT6 ["/o6/y.ts"] = Except.ok ["/t6/x.ts"] := by
  have hps : projectsWs6 =
      [{ name := none, rootDir := "/t6", context := ctxT6, dependencyResolver := t6Resolver },
       { name := some "o6-pkg", rootDir := "/o6", context := ctxO6,
         dependencyResolver := emptyResolver }] := rfl
  refine ⟨?_, rfl⟩
  apply workspace_resolvers_agree_without_cross_package_imports
  · intro p hp h
    rw [hps] at hp
    rcases List.mem_cons.mp hp with rfl | hp2
    · rfl
    · rcases List.mem_singleton.mp hp2 with rfl
      exact absurd h (by decide)
  · intro f hf
    rcases List.mem_singleton.mp hf with rfl
    decide
  · intro p hp h f hf
    rw [hps] at hp
    rcases List.mem_cons.mp hp with rfl | hp2
    · rcases List.mem_singleton.mp hf with rfl
      exact ⟨["/o6/y.ts"], rfl⟩
    · rcases List.mem_singleton.mp hp2 with rfl
      exact absurd h (by decide)
  · intro q hq f hf ds hds d hd r hr nm hname
    rw [hps] at hq hr
    rcases List.mem_cons.mp hq with rfl | hq2
    · rcases List.mem_singleton.mp hf with rfl
      have hds' : ds = ["../o6/y"] := by
        have : some ["../o6/y"] = some ds := by
          rw [← hds]; rfl
        exact (Option.some.injEq _ _).mp this.symm ▸ rfl
      subst hds'
      rcases List.mem_singleton.mp hd with rfl
      rcases List.mem_cons.mp hr with rfl | hr2
      · exact Option.noConfusion hname
      · rcases List.mem_singleton.mp hr2 with rfl
        have : nm = "o6-pkg" := by
          have := hname
          simpa using this.symm
        subst this
        decide
    · rcases List.mem_singleton.mp hq2 with rfl
      rcases List.mem_singleton.mp hf with rfl
      have hds' : ds = [] := by
        have : some ([] : List String) = some ds := by
          rw [← hds]; rfl
        simpa using this.symm
      subst hds'
      cases hd

/-- An in-place node update that does not touch file, imported modules or
importers leaves the edge view of the heap unchanged. -/
theorem updateNode_proj_eq {objs : List ModuleNode} {f : String}
    {upd : ModuleNode → ModuleNode}
    (h : ∀ m : ModuleNode, ((upd m).file, (upd m).importedModules, (upd m).importers) =
      (m.file, m.importedModules, m.importers)) :
    (updateNode objs f upd).map (fun n => (n.file, n.importedModules, n.importers)) =
      objs.map (fun n => (n.file, n.importedModules, n.importers)) := by
  unfold updateNode
  rw [List.map_map]
  apply List.map_congr_left
  intro m _
  by_cases hm : (m.file == f) = true
  · simp only [Function.comp, if_pos hm]
    exact h m
  · simp only [Function.comp, if_neg hm]

/-- C8 (amended).  A resolver error during edge building is caught: the
per-file edge phase completes, changes no counter, installs no edge and
removes no table key (first conjunct); `buildGraph` on the all-throwing
fixture completes normally with zero edges (second and third conjuncts).
But `findFilesInProjectDependingOnChangedPaths` in both resolver classes
propagates the resolver's error to its caller (last two conjuncts). -/
theorem buildGraph_swallows_resolver_errors :
    (∀ (project : ProjectMetadata) (file : String) (g : GlobalDependencyGraph),
        project.dependencyResolver.resolve file project.context.skipNodeResolution =
          Except.error () →
        (GlobalDependencyGraph.buildEdgesForFile project file g).stats = g.stats ∧
        (GlobalDependencyGraph.buildEdgesForFile project file g).objects.map
            (fun n => (n.file, n.importedModules, n.importers)) =
          g.objects.map (fun n => (n.file, n.importedModules, n.importers)) ∧
        (GlobalDependencyGraph.buildEdgesForFile project file g).tableKeys = g.tableKeys) ∧
    (GlobalDependencyGraph.buildGraph gThrow).isGraphBuilt = true ∧
    (GlobalDependencyGraph.buildGraph gThrow).stats.totalEdges = 0 ∧
    WorkspaceDependencyResolver.findFilesInProjectDependingOnChangedPaths
      envId projectsThrow ctxThrow ["/t7/b.ts"] = Except.error () ∧
    WorkspaceDependencyResolverOptimized.findFilesInProjectDependingOnChangedPaths
      envId projectsThrow none ctxThrow ["/t7/b.ts"] = Except.error () := by
  refine ⟨?_, by decide, by decide, rfl, rfl⟩
  intro project file g herr
  cases htg : GlobalDependencyGraph.tableGet g file with
  | none =>
    simp only [GlobalDependencyGraph.buildEdgesForFile, htg]
    exact ⟨trivial, trivial, trivial⟩
  | some sourceNode =>
    cases hdeps : project.context.deps file with
    | none =>
      simp only [GlobalDependencyGraph.buildEdgesForFile, htg, hdeps]
      exact ⟨trivial, trivial, trivial⟩
    | some raw =>
      simp only [GlobalDependencyGraph.buildEdgesForFile, htg, hdeps, herr,
        GlobalDependencyGraph.resolveCrossProjectDependencies]
      refine ⟨trivial, ?_, trivial⟩
      exact updateNode_proj_eq (fun m => rfl)

/-- C8 witness: the frame statement instantiated on the always-throwing
fixture project and its single file. -/
theorem buildGraph_swallows_resolver_errors_witness :
    (GlobalDependencyGraph.buildEdgesForFile
        { name := "Project(/t7)", rootDir := "/t7", context := ctxThrow,
          dependencyResolver := throwingResolver, packageName := none }
        "/t7/a.ts" (GlobalDependencyGraph.buildGraph gThrow)).stats =
      (GlobalDependencyGraph.buildGraph gThrow).stats := by
  exact (buildGraph_swallows_resolver_errors.1 _ "/t7/a.ts" _ rfl).1

/-- The importer loop appends exactly the newly queued files to the
visited set, in order. -/
theorem enqueueImporters_visited {objs : List ModuleNode} :
    ∀ (imps vis : List String),
      (GlobalDependencyGraph.enqueueImporters objs imps vis).1 =
        vis ++ (GlobalDependencyGraph.enqueueImporters objs imps vis).2 := by
  intro imps
  induction imps with
  | nil => intro vis; simp [GlobalDependencyGraph.enqueueImporters]
  | cons i rest ih =>
    intro vis
    cases hsg : storeGet objs i with
    | none =>
      simp only [GlobalDependencyGraph.enqueueImporters, hsg]
      exact ih vis
    | some n =>
      by_cases hv : i ∈ vis
      · simp only [GlobalDependencyGraph.enqueueImporters, hsg, if_pos hv]
        exact ih vis
      · simp only [GlobalDependencyGraph.enqueueImporters, hsg, if_neg hv]
        rw [ih (vis ++ [i])]
        simp

/-- Every newly queued file is a dereferencing importer reference that was
not yet visited. -/
theorem enqueueImporters_queued {objs : List ModuleNode} :
    ∀ (imps vis : List String) (b : String),
      b ∈ (GlobalDependencyGraph.enqueueImporters objs imps vis).2 →
      b ∈ imps ∧ (storeGet objs b).isSome ∧ b ∉ vis := by
  intro imps
  induction imps with
  | nil => intro vis b hb; simp [GlobalDependencyGraph.enqueueImporters] at hb
  | cons i rest ih =>
    intro vis b hb
    cases hsg : storeGet objs i with
    | none =>
      simp only [GlobalDependencyGraph.enqueueImporters, hsg] at hb
      rcases ih vis b hb with ⟨h1, h2, h3⟩
      exact ⟨List.mem_cons_of_mem i h1, h2, h3⟩
    | some n =>
      by_cases hv : i ∈ vis
      · simp only [GlobalDependencyGraph.enqueueImporters, hsg, if_pos hv] at hb
        rcases ih vis b hb with ⟨h1, h2, h3⟩
        exact ⟨List.mem_cons_of_mem i h1, h2, h3⟩
      · simp only [GlobalDependencyGraph.enqueueImporters, hsg, if_neg hv] at hb
        rcases List.mem_cons.mp hb with rfl | hb2
        · exact ⟨List.mem_cons_self b rest, by rw [hsg]; rfl, hv⟩
        · rcases ih (vis ++ [i]) b hb2 with ⟨h1, h2, h3⟩
          · exact ⟨List.mem_cons_of_mem i h1, h2, fun hbv => h3 (List.mem_append.mpr (Or.inl hbv))⟩

/-- After the importer loop every dereferencing importer reference is
visited. -/
theorem enqueueImporters_covers {objs : List ModuleNode} :
    ∀ (imps vis : List String) (b : String),
      b ∈ imps → (storeGet objs b).isSome = true →
      b ∈ (GlobalDependencyGraph.enqueueImporters objs imps vis).1 := by
  intro imps
  induction imps with
  | nil => intro vis b hb _; cases hb
  | cons i rest ih =>
    intro vis b hb hsome
    cases hsg : storeGet objs i with
    | none =>
      simp only [GlobalDependencyGraph.enqueueImporters, hsg]
      rcases List.mem_cons.mp hb with rfl | hb2
      · rw [hsg] at hsome; simp at hsome
      · exact ih vis b hb2 hsome
    | some n =>
      by_cases hv : i ∈ vis
      · simp only [GlobalDependencyGraph.enqueueImporters, hsg, if_pos hv]
        rcases List.mem_cons.mp hb with rfl | hb2
        · rw [enqueueImporters_visited]
          exact List.mem_append.mpr (Or.inl hv)
        · exact ih vis b hb2 hsome
      · simp only [GlobalDependencyGraph.enqueueImporters, hsg, if_neg hv]
        rcases List.mem_cons.mp hb with rfl | hb2
        · rw [enqueueImporters_visited]
          exact List.mem_append.mpr (Or.inl (List.mem_append.mpr (Or.inr (List.mem_singleton.mpr rfl))))
        · exact ih (vis ++ [i]) b hb2 hsome

/-- Soundness of the `findAffectedTests` BFS: with a step-closed predicate
holding on the queue, everything collected satisfies it and is a test
node. -/
theorem bfsAffectedTests_sound {objs : List ModuleNode} (R : String → Prop)
    (hstep : ∀ a b, R a → importerStep objs a b → R b) :
    ∀ (queue visited acc : List String),
      (∀ f ∈ queue, R f) →
      (∀ a ∈ acc, R a ∧ isTestNodeAt objs a) →
      ∀ x ∈ GlobalDependencyGraph.bfsAffectedTests objs queue visited acc,
        R x ∧ isTestNodeAt objs x := by
  intro queue visited acc
  refine GlobalDependencyGraph.bfsAffectedTests.induct objs
    (fun queue visited acc =>
      (∀ f ∈ queue, R f) →
      (∀ a ∈ acc, R a ∧ isTestNodeAt objs a) →
      ∀ x ∈ GlobalDependencyGraph.bfsAffectedTests objs queue visited acc,
        R x ∧ isTestNodeAt objs x)
    ?_ ?_ ?_ queue visited acc
  · intro visited acc _ hacc x hx
    simp only [GlobalDependencyGraph.bfsAffectedTests] at hx
    exact hacc x hx
  · intro f rest visited acc hsg ih hq hacc x hx
    simp only [GlobalDependencyGraph.bfsAffectedTests, hsg] at hx
    exact ih (fun f' h => hq f' (List.mem_cons_of_mem f h)) hacc x hx
  · intro f rest visited acc node hsg acc2 r2 ih hq hacc x hx
    simp only [GlobalDependencyGraph.bfsAffectedTests, hsg] at hx
    have hRf : R f := hq f (List.mem_cons_self f rest)
    unfold acc2 r2 at ih
    refine ih ?_ ?_ x hx
    · intro f' hf'
      rcases List.mem_append.mp hf' with h | h
      · exact hq f' (List.mem_cons_of_mem f h)
      · rcases enqueueImporters_queued node.importers visited f' h with ⟨h1, h2, _⟩
        exact hstep f f' hRf ⟨node, hsg, h1, h2⟩
    · intro a ha
      by_cases hit : node.isTest = true
      · rw [dif_pos hit] at ha
        rcases mem_setAdd.mp ha with h | rfl
        · exact hacc a h
        · have hfile := storeGet_file hsg
          refine ⟨hfile ▸ hRf, node, ?_, hit⟩
          rw [hfile]
          exact hsg
      · rw [dif_neg hit] at ha
        exact hacc a ha

/-- Completeness of the `findAffectedTests` BFS: under the standard
worklist invariants, every test node backward-reachable from a visited
file ends up in the result. -/
theorem bfsAffectedTests_complete {objs : List ModuleNode} :
    ∀ (queue visited acc : List String),
      (∀ f ∈ queue, f ∈ visited) →
      (∀ v ∈ visited, v ∈ queue ∨ ∀ b, importerStep objs v b → b ∈ visited) →
      (∀ v ∈ visited, v ∈ queue ∨ (isTestNodeAt objs v → v ∈ acc)) →
      ∀ x s, s ∈ visited → ImporterReach objs s x → isTestNodeAt objs x →
        x ∈ GlobalDependencyGraph.bfsAffectedTests objs queue visited acc := by
  intro queue visited acc
  refine GlobalDependencyGraph.bfsAffectedTests.induct objs
    (fun queue visited acc =>
      (∀ f ∈ queue, f ∈ visited) →
      (∀ v ∈ visited, v ∈ queue ∨ ∀ b, importerStep objs v b → b ∈ visited) →
      (∀ v ∈ visited, v ∈ queue ∨ (isTestNodeAt objs v → v ∈ acc)) →
      ∀ x s, s ∈ visited → ImporterReach objs s x → isTestNodeAt objs x →
        x ∈ GlobalDependencyGraph.bfsAffectedTests objs queue visited acc)
    ?_ ?_ ?_ queue visited acc
  · intro visited acc _ hclosed hcollected x s hs hreach htest
    simp only [GlobalDependencyGraph.bfsAffectedTests]
    have hreachvis : ∀ y, ImporterReach objs s y → y ∈ visited := by
      intro y hy
      induction hy with
      | refl => exact hs
      | tail hab hbc ihab =>
        rcases hclosed _ ihab with h | h
        · exact absurd h (List.not_mem_nil _)
        · exact h _ hbc
    rcases hcollected x (hreachvis x hreach) with hx | hc
    · exact absurd hx (List.not_mem_nil x)
    · exact hc htest
  · intro f rest visited acc hsg ih hq hclosed hcollected x s hs hreach htest
    simp only [GlobalDependencyGraph.bfsAffectedTests, hsg]
    refine ih ?_ ?_ ?_ x s hs hreach htest
    · intro f' hf'; exact hq f' (List.mem_cons_of_mem f hf')
    · intro v hv
      rcases hclosed v hv with hvq | hcl
      · rcases List.mem_cons.mp hvq with rfl | hvrest
        · right
          intro b hb
          rcases hb with ⟨n, hn, _, _⟩
          rw [hsg] at hn
          cases hn
        · left; exact hvrest
      · right; exact hcl
    · intro v hv
      rcases hcollected v hv with hvq | hcl
      · rcases List.mem_cons.mp hvq with rfl | hvrest
        · right
          intro ht
          rcases ht with ⟨n, hn, _⟩
          rw [hsg] at hn
          cases hn
        · left; exact hvrest
      · right; exact hcl
  · intro f rest visited acc node hsg acc2 r2 ih hq hclosed hcollected x s hs hreach htest
    simp only [GlobalDependencyGraph.bfsAffectedTests, hsg]
    unfold acc2 r2 at ih
    have hvis := @enqueueImporters_visited objs node.importers visited
    have hsubV : ∀ v ∈ visited,
        v ∈ (GlobalDependencyGraph.enqueueImporters objs node.importers visited).1 := by
      intro v hv
      rw [hvis]
      exact List.mem_append.mpr (Or.inl hv)
    refine ih ?_ ?_ ?_ x s (hsubV s hs) hreach htest
    · intro f' hf'
      rcases List.mem_append.mp hf' with h | h
      · exact hsubV f' (hq f' (List.mem_cons_of_mem f h))
      · rw [hvis]; exact List.mem_append.mpr (Or.inr h)
    · intro v hv
      rcases List.mem_append.mp (hvis ▸ hv) with hvold | hvnew
      · rcases hclosed v hvold with hvq | hcl
        · rcases List.mem_cons.mp hvq with rfl | hvrest
          · right
            intro b hb
            rcases hb with ⟨n, hn, himp, hsome⟩
            rw [hsg] at hn
            injection hn with hn2
            subst hn2
            exact enqueueImporters_covers node.importers visited b himp hsome
          · left; exact List.mem_append.mpr (Or.inl hvrest)
        · right
          intro b hb
          exact hsubV b (hcl b hb)
      · left; exact List.mem_append.mpr (Or.inr hvnew)
    · intro v hv
      rcases List.mem_append.mp (hvis ▸ hv) with hvold | hvnew
      · rcases hcollected v hvold with hvq | hcl
        · rcases List.mem_cons.mp hvq with rfl | hvrest
          · right
            intro ht
            rcases ht with ⟨n, hn, hTest⟩
            have hnn : n = node := by
              have h2 := hn.symm.trans hsg
              injection h2
            subst hnn
            rw [dif_pos hTest]
            exact mem_setAdd.mpr (Or.inr (storeGet_file hsg).symm)
          · left; exact List.mem_append.mpr (Or.inl hvrest)
        · right
          intro ht
          have hva := hcl ht
          by_cases hit : node.isTest = true
          · rw [dif_pos hit]
            exact mem_setAdd.mpr (Or.inl hva)
          · rw [dif_neg hit]
            exact hva
      · left; exact List.mem_append.mpr (Or.inr hvnew)

/-- Characterization of `collectSeeds`: a file ends up on the queue
(resp. in the visited set) iff it already was in the accumulator or is a
seed of the changed-file list. -/
theorem collectSeeds_spec (env : PathEnv) (g : GlobalDependencyGraph) :
    ∀ (changed q v : List String),
      (∀ x, x ∈ (GlobalDependencyGraph.collectSeeds env g changed (q, v)).1 ↔
        (x ∈ q ∨ IsSeed env g changed x)) ∧
      (∀ x, x ∈ (GlobalDependencyGraph.collectSeeds env g changed (q, v)).2 ↔
        (x ∈ v ∨ IsSeed env g changed x)) := by
  intro changed
  induction changed with
  | nil =>
    intro q v
    constructor <;> intro x <;>
      simp [GlobalDependencyGraph.collectSeeds, IsSeed]
  | cons c rest ih =>
    intro q v
    cases htg : g.tableGet (env.resolve c) with
    | none =>
      have hunf : GlobalDependencyGraph.collectSeeds env g (c :: rest) (q, v) =
          GlobalDependencyGraph.collectSeeds env g rest (q, v) := by
        simp only [GlobalDependencyGraph.collectSeeds, htg]
      have hseed : ∀ x, IsSeed env g (c :: rest) x ↔ IsSeed env g rest x := by
        intro x
        unfold IsSeed
        constructor
        · rintro ⟨c', hc', n, hn1, hn2⟩
          rcases List.mem_cons.mp hc' with rfl | hc''
          · rw [htg] at hn1; cases hn1
          · exact ⟨c', hc'', n, hn1, hn2⟩
        · rintro ⟨c', hc', n, hn1, hn2⟩
          exact ⟨c', List.mem_cons_of_mem c hc', n, hn1, hn2⟩
      constructor <;> intro x
      · rw [hunf, (ih q v).1 x, hseed]
      · rw [hunf, (ih q v).2 x, hseed]
    | some node =>
      have hunf : GlobalDependencyGraph.collectSeeds env g (c :: rest) (q, v) =
          GlobalDependencyGraph.collectSeeds env g rest
            (q ++ [node.file], setAdd v node.file) := by
        simp only [GlobalDependencyGraph.collectSeeds, htg]
      have hseed : ∀ x, IsSeed env g (c :: rest) x ↔
          (x = node.file ∨ IsSeed env g rest x) := by
        intro x
        unfold IsSeed
        constructor
        · rintro ⟨c', hc', n, hn1, hn2⟩
          rcases List.mem_cons.mp hc' with rfl | hc''
          · rw [htg] at hn1
            injection hn1 with h
            subst h
            exact Or.inl hn2.symm
          · exact Or.inr ⟨c', hc'', n, hn1, hn2⟩
        · rintro (rfl | ⟨c', hc', n, hn1, hn2⟩)
          · exact ⟨c, List.mem_cons_self c rest, node, htg, rfl⟩
          · exact ⟨c', List.mem_cons_of_mem c hc', n, hn1, hn2⟩
      constructor <;> intro x
      · rw [hunf, (ih (q ++ [node.file]) (setAdd v node.file)).1 x, hseed]
        constructor
        · rintro (hq | h)
          · rcases List.mem_append.mp hq with h | h
            · exact Or.inl h
            · exact Or.inr (Or.inl (List.mem_singleton.mp h))
          · exact Or.inr (Or.inr h)
        · rintro (h | h | h)
          · exact Or.inl (List.mem_append.mpr (Or.inl h))
          · exact Or.inl (List.mem_append.mpr (Or.inr (List.mem_singleton.mpr h)))
          · exact Or.inr h
      · rw [hunf, (ih (q ++ [node.file]) (setAdd v node.file)).2 x, hseed]
        constructor
        · rintro (hq | h)
          · rcases mem_setAdd.mp hq with h | h
            · exact Or.inl h
            · exact Or.inr (Or.inl h)
          · exact Or.inr (Or.inr h)
        · rintro (h | h | h)
          · exact Or.inl (mem_setAdd.mpr (Or.inl h))
          · exact Or.inl (mem_setAdd.mpr (Or.inr h))
          · exact Or.inr h

/-- C3: `findAffectedTests` returns exactly the test-flagged nodes
backward-reachable along importer edges from the nodes of the changed
files present in the graph (the seeds); in particular changed files from
which no test is reachable contribute nothing, and on the chain fixture
(`u.ts` imported by the non-test `a.ts`) the result is empty. -/
theorem findAffectedTests_characterization :
    (∀ (env : PathEnv) (g : GlobalDependencyGraph) (changedFiles : List String) (x : String),
        x ∈ (GlobalDependencyGraph.findAffectedTests env g changedFiles).2 ↔
          ∃ s, IsSeed env g.buildGraph changedFiles s ∧
            ImporterReach g.buildGraph.objects s x ∧
            isTestNodeAt g.buildGraph.objects x) ∧
    (GlobalDependencyGraph.findAffectedTests envId gChain ["/w2/u.ts"]).2 = [] := by
  constructor
  · intro env g changedFiles x
    have hresult : (GlobalDependencyGraph.findAffectedTests env g changedFiles).2 =
        GlobalDependencyGraph.bfsAffectedTests g.buildGraph.objects
          (GlobalDependencyGraph.collectSeeds env g.buildGraph changedFiles ([], [])).1
          (GlobalDependencyGraph.collectSeeds env g.buildGraph changedFiles ([], [])).2
          [] := rfl
    have hspec := collectSeeds_spec env g.buildGraph changedFiles [] []
    constructor
    · intro hx
      rw [hresult] at hx
      have hstep : ∀ a b,
          (∃ s, IsSeed env g.buildGraph changedFiles s ∧
            ImporterReach g.buildGraph.objects s a) →
          importerStep g.buildGraph.objects a b →
          ∃ s, IsSeed env g.buildGraph changedFiles s ∧
            ImporterReach g.buildGraph.objects s b := by
        rintro a b ⟨s, hs, hr⟩ hab
        exact ⟨s, hs, Relation.ReflTransGen.tail hr hab⟩
      have hsound := @bfsAffectedTests_sound g.buildGraph.objects
        (fun y => ∃ s, IsSeed env g.buildGraph changedFiles s ∧
          ImporterReach g.buildGraph.objects s y)
        hstep
        (GlobalDependencyGraph.collectSeeds env g.buildGraph changedFiles ([], [])).1
        (GlobalDependencyGraph.collectSeeds env g.buildGraph changedFiles ([], [])).2
        []
        (fun f hf => by
          rcases ((hspec.1 f).mp hf) with h | h
          · cases h
          · exact ⟨f, h, Relation.ReflTransGen.refl⟩)
        (fun a ha => absurd ha (List.not_mem_nil a))
        x hx
      rcases hsound with ⟨⟨s, hs, hr⟩, htest⟩
      exact ⟨s, hs, hr, htest⟩
    · rintro ⟨s, hs, hr, htest⟩
      rw [hresult]
      refine bfsAffectedTests_complete _ _ _ ?_ ?_ ?_ x s ?_ hr htest
      · intro f hf
        exact (hspec.2 f).mpr (Or.inr (((hspec.1 f).mp hf).resolve_left
          (fun h => (List.not_mem_nil f) h)))
      · intro v hv
        left
        exact (hspec.1 v).mpr (Or.inr (((hspec.2 v).mp hv).resolve_left
          (fun h => (List.not_mem_nil v) h)))
      · intro v hv
        left
        exact (hspec.1 v).mpr (Or.inr (((hspec.2 v).mp hv).resolve_left
          (fun h => (List.not_mem_nil v) h)))
      · exact (hspec.2 s).mpr (Or.inr hs)
  · have hobj : gChain.buildGraph.objects =
        [{ file := "/w2/u.ts", projectRoot := "/w2", importedModules := [],
           importers := ["/w2/a.ts"], rawImports := [], isTest := false },
         { file := "/w2/a.ts", projectRoot := "/w2",
           importedModules := ["/w2/u.ts"], importers := [],
           rawImports := ["./u"], isTest := false }] := by decide
    have hseeds : GlobalDependencyGraph.collectSeeds envId gChain.buildGraph
        ["/w2/u.ts"] ([], []) = (["/w2/u.ts"], ["/w2/u.ts"]) := by decide
    have hresult : (GlobalDependencyGraph.findAffectedTests envId gChain ["/w2/u.ts"]).2 =
        GlobalDependencyGraph.bfsAffectedTests gChain.buildGraph.objects
          (GlobalDependencyGraph.collectSeeds envId gChain.buildGraph
            ["/w2/u.ts"] ([], [])).1
          (GlobalDependencyGraph.collectSeeds envId gChain.buildGraph
            ["/w2/u.ts"] ([], [])).2 [] := rfl
    rw [hresult, hobj, hseeds]
    simp [GlobalDependencyGraph.bfsAffectedTests, storeGet,
      GlobalDependencyGraph.enqueueImporters, setAdd, List.find?]
/-- C6: the visited-set discipline makes the BFS of `findAffectedTests`
well-defined on cyclic import graphs — the traversal terminates (the Lean
function is total by the decreasing unvisited count) and the collected
accumulator stays duplicate-free, so no file is reported twice; on the
two-file import cycle, changing `b.ts` yields the test file exactly
once. -/
theorem findAffectedTests_terminates_on_cycles :
    (∀ (objs : List ModuleNode) (queue visited : List String),
        (GlobalDependencyGraph.bfsAffectedTests objs queue visited []).Nodup) ∧
    (GlobalDependencyGraph.findAffectedTests envId gCycle ["/w/b.ts"]).2 =
      ["/w/a.test.ts"] := by
  constructor
  · have main : ∀ (objs : List ModuleNode) (queue visited acc : List String),
        acc.Nodup →
        (GlobalDependencyGraph.bfsAffectedTests objs queue visited acc).Nodup := by
      intro objs queue visited acc
      refine GlobalDependencyGraph.bfsAffectedTests.induct objs
        (fun queue visited acc => acc.Nodup →
          (GlobalDependencyGraph.bfsAffectedTests objs queue visited acc).Nodup)
        ?_ ?_ ?_ queue visited acc
      · intro visited acc h
        simpa only [GlobalDependencyGraph.bfsAffectedTests] using h
      · intro f rest visited acc hsg ih h
        simp only [GlobalDependencyGraph.bfsAffectedTests, hsg]
        exact ih h
      · intro f rest visited acc node hsg acc2 r2 ih h
        simp only [GlobalDependencyGraph.bfsAffectedTests, hsg]
        unfold acc2 r2 at ih
        apply ih
        by_cases hit : node.isTest = true
        · rw [dif_pos hit]
          exact setAdd_nodup h
        · rw [dif_neg hit]
          exact h
    intro objs queue visited
    exact main objs queue visited [] List.nodup_nil
  · have hobj : gCycle.buildGraph.objects =
        [{ file := "/w/a.test.ts", projectRoot := "/w",
           importedModules := ["/w/b.ts"], importers := ["/w/b.ts"],
           rawImports := ["./b"], isTest := true },
         { file := "/w/b.ts", projectRoot := "/w",
           importedModules := ["/w/a.test.ts"], importers := ["/w/a.test.ts"],
           rawImports := ["./a"], isTest := false }] := by decide
    have hseeds : GlobalDependencyGraph.collectSeeds envId gCycle.buildGraph
        ["/w/b.ts"] ([], []) = (["/w/b.ts"], ["/w/b.ts"]) := by decide
    have hresult : (GlobalDependencyGraph.findAffectedTests envId gCycle ["/w/b.ts"]).2 =
        GlobalDependencyGraph.bfsAffectedTests gCycle.buildGraph.objects
          (GlobalDependencyGraph.collectSeeds envId gCycle.buildGraph
            ["/w/b.ts"] ([], [])).1
          (GlobalDependencyGraph.collectSeeds envId gCycle.buildGraph
            ["/w/b.ts"] ([], [])).2 [] := rfl
    rw [hresult, hobj, hseeds]
    simp [GlobalDependencyGraph.bfsAffectedTests, storeGet,
      GlobalDependencyGraph.enqueueImporters, setAdd, List.find?]
/-- After the collecting importer loop of `findAffectedFilesInProject`,
the visited set is the old one followed by the queued files. -/
theorem enqueueCollectImporters_visited {objs : List ModuleNode} {target : String} :
    ∀ (imps vis ac : List String),
      (GlobalDependencyGraph.enqueueCollectImporters objs target imps vis ac).1 =
        vis ++ (GlobalDependencyGraph.enqueueCollectImporters objs target imps vis ac).2.2 := by
  intro imps
  induction imps with
  | nil => intro vis ac; simp [GlobalDependencyGraph.enqueueCollectImporters]
  | cons i rest ih =>
    intro vis ac
    cases hsg : storeGet objs i with
    | none =>
      simp only [GlobalDependencyGraph.enqueueCollectImporters, hsg]
      exact ih vis ac
    | some n =>
      by_cases hv : i ∈ vis
      · simp only [GlobalDependencyGraph.enqueueCollectImporters, hsg, if_pos hv]
        exact ih vis ac
      · simp only [GlobalDependencyGraph.enqueueCollectImporters, hsg, if_neg hv]
        rw [ih]
        simp

/-- Every file queued by the collecting importer loop is a dereferencing
importer reference that was not yet visited. -/
theorem enqueueCollectImporters_queued {objs : List ModuleNode} {target : String} :
    ∀ (imps vis ac : List String) (b : String),
      b ∈ (GlobalDependencyGraph.enqueueCollectImporters objs target imps vis ac).2.2 →
      b ∈ imps ∧ (storeGet objs b).isSome ∧ b ∉ vis := by
  intro imps
  induction imps with
  | nil =>
    intro vis ac b hb
    simp [GlobalDependencyGraph.enqueueCollectImporters] at hb
  | cons i rest ih =>
    intro vis ac b hb
    cases hsg : storeGet objs i with
    | none =>
      simp only [GlobalDependencyGraph.enqueueCollectImporters, hsg] at hb
      rcases ih vis ac b hb with ⟨h1, h2, h3⟩
      exact ⟨List.mem_cons_of_mem i h1, h2, h3⟩
    | some n =>
      by_cases hv : i ∈ vis
      · simp only [GlobalDependencyGraph.enqueueCollectImporters, hsg, if_pos hv] at hb
        rcases ih vis ac b hb with ⟨h1, h2, h3⟩
        exact ⟨List.mem_cons_of_mem i h1, h2, h3⟩
      · simp only [GlobalDependencyGraph.enqueueCollectImporters, hsg, if_neg hv] at hb
        rcases List.mem_cons.mp hb with rfl | hb2
        · exact ⟨List.mem_cons_self b rest, by rw [hsg]; rfl, hv⟩
        · rcases ih (vis ++ [i]) _ b hb2 with ⟨h1, h2, h3⟩
          exact ⟨List.mem_cons_of_mem i h1, h2,
            fun hbv => h3 (List.mem_append.mpr (Or.inl hbv))⟩

/-- Every file the collecting importer loop adds to the collected set was
either already collected or is a dereferencing, not yet visited importer
reference. -/
theorem enqueueCollectImporters_acc {objs : List ModuleNode} {target : String} :
    ∀ (imps vis ac : List String) (a : String),
      a ∈ (GlobalDependencyGraph.enqueueCollectImporters objs target imps vis ac).2.1 →
      a ∈ ac ∨ (a ∈ imps ∧ (storeGet objs a).isSome ∧ a ∉ vis) := by
  intro imps
  induction imps with
  | nil =>
    intro vis ac a ha
    simp only [GlobalDependencyGraph.enqueueCollectImporters] at ha
    exact Or.inl ha
  | cons i rest ih =>
    intro vis ac a ha
    cases hsg : storeGet objs i with
    | none =>
      simp only [GlobalDependencyGraph.enqueueCollectImporters, hsg] at ha
      rcases ih vis ac a ha with h | ⟨h1, h2, h3⟩
      · exact Or.inl h
      · exact Or.inr ⟨List.mem_cons_of_mem i h1, h2, h3⟩
    | some n =>
      by_cases hv : i ∈ vis
      · simp only [GlobalDependencyGraph.enqueueCollectImporters, hsg, if_pos hv] at ha
        rcases ih vis ac a ha with h | ⟨h1, h2, h3⟩
        · exact Or.inl h
        · exact Or.inr ⟨List.mem_cons_of_mem i h1, h2, h3⟩
      · simp only [GlobalDependencyGraph.enqueueCollectImporters, hsg, if_neg hv] at ha
        rcases ih (vis ++ [i]) _ a ha with h | ⟨h1, h2, h3⟩
        · by_cases hmt : (n.projectRoot == target) = true
          · rw [if_pos hmt] at h
            rcases mem_setAdd.mp h with h' | h'
            · exact Or.inl h'
            · have hai : a = i := by rw [h', storeGet_file hsg]
              subst hai
              exact Or.inr ⟨List.mem_cons_self a rest, by rw [hsg]; rfl, hv⟩
          · rw [if_neg hmt] at h
            exact Or.inl h
        · exact Or.inr ⟨List.mem_cons_of_mem i h1, h2,
            fun hbv => h3 (List.mem_append.mpr (Or.inl hbv))⟩

/-- Soundness of the `findAffectedFilesInProject` BFS: no collected file
is a seed (seeds are visited from the start, and only files not yet
visited are ever collected), and every collected file is a proper
importer-ancestor of some seed. -/
theorem bfsAffectedFilesInProject_sound {objs : List ModuleNode} (target : String)
    (S : String → Prop) :
    ∀ (queue visited acc : List String),
      (∀ f ∈ queue, ∃ s, S s ∧ ImporterReach objs s f) →
      (∀ s, S s → s ∈ visited) →
      (∀ a ∈ acc, ¬ S a ∧ ∃ s, S s ∧ Relation.TransGen (importerStep objs) s a) →
      ∀ x ∈ GlobalDependencyGraph.bfsAffectedFilesInProject objs target queue visited acc,
        ¬ S x ∧ ∃ s, S s ∧ Relation.TransGen (importerStep objs) s x := by
  intro queue visited acc
  refine GlobalDependencyGraph.bfsAffectedFilesInProject.induct objs target
    (fun queue visited acc =>
      (∀ f ∈ queue, ∃ s, S s ∧ ImporterReach objs s f) →
      (∀ s, S s → s ∈ visited) →
      (∀ a ∈ acc, ¬ S a ∧ ∃ s, S s ∧ Relation.TransGen (importerStep objs) s a) →
      ∀ x ∈ GlobalDependencyGraph.bfsAffectedFilesInProject objs target queue visited acc,
        ¬ S x ∧ ∃ s, S s ∧ Relation.TransGen (importerStep objs) s x)
    ?_ ?_ ?_ queue visited acc
  · intro visited acc _ _ hacc x hx
    simp only [GlobalDependencyGraph.bfsAffectedFilesInProject] at hx
    exact hacc x hx
  · intro f rest visited acc hsg ih hq hvis hacc x hx
    simp only [GlobalDependencyGraph.bfsAffectedFilesInProject, hsg] at hx
    exact ih (fun f' h => hq f' (List.mem_cons_of_mem f h)) hvis hacc x hx
  · intro f rest visited acc node hsg r ih hq hvis hacc x hx
    simp only [GlobalDependencyGraph.bfsAffectedFilesInProject, hsg] at hx
    unfold r at ih
    rcases hq f (List.mem_cons_self f rest) with ⟨s, hS, hreach⟩
    refine ih ?_ ?_ ?_ x hx
    · intro f' hf'
      rcases List.mem_append.mp hf' with h | h
      · exact hq f' (List.mem_cons_of_mem f h)
      · rcases enqueueCollectImporters_queued node.importers visited acc f' h with
          ⟨h1, h2, _⟩
        exact ⟨s, hS, Relation.ReflTransGen.tail hreach ⟨node, hsg, h1, h2⟩⟩
    · intro s' hs'
      rw [enqueueCollectImporters_visited]
      exact List.mem_append.mpr (Or.inl (hvis s' hs'))
    · intro a ha
      rcases enqueueCollectImporters_acc node.importers visited acc a ha with
        h | ⟨h1, h2, h3⟩
      · exact hacc a h
      · constructor
        · intro hSa
          exact h3 (hvis a hSa)
        · exact ⟨s, hS, Relation.TransGen.tail' hreach ⟨node, hsg, h1, h2⟩⟩

/-- Characterization of `collectSeedsAndProjects`: a file ends up on the
queue (resp. in the visited set) iff it already was in the accumulator or
is a seed of the changed-file list. -/
theorem collectSeedsAndProjects_spec (env : PathEnv) (g : GlobalDependencyGraph) :
    ∀ (changed p q v : List String),
      (∀ x, x ∈ (GlobalDependencyGraph.collectSeedsAndProjects env g changed (p, q, v)).2.1 ↔
        (x ∈ q ∨ IsSeed env g changed x)) ∧
      (∀ x, x ∈ (GlobalDependencyGraph.collectSeedsAndProjects env g changed (p, q, v)).2.2 ↔
        (x ∈ v ∨ IsSeed env g changed x)) := by
  intro changed
  induction changed with
  | nil =>
    intro p q v
    constructor <;> intro x <;>
      simp [GlobalDependencyGraph.collectSeedsAndProjects, IsSeed]
  | cons c rest ih =>
    intro p q v
    cases htg : g.tableGet (env.resolve c) with
    | none =>
      have hunf : GlobalDependencyGraph.collectSeedsAndProjects env g (c :: rest) (p, q, v) =
          GlobalDependencyGraph.collectSeedsAndProjects env g rest (p, q, v) := by
        simp only [GlobalDependencyGraph.collectSeedsAndProjects, htg]
      have hseed : ∀ x, IsSeed env g (c :: rest) x ↔ IsSeed env g rest x := by
        intro x
        unfold IsSeed
        constructor
        · rintro ⟨c', hc', n, hn1, hn2⟩
          rcases List.mem_cons.mp hc' with rfl | hc''
          · rw [htg] at hn1; cases hn1
          · exact ⟨c', hc'', n, hn1, hn2⟩
        · rintro ⟨c', hc', n, hn1, hn2⟩
          exact ⟨c', List.mem_cons_of_mem c hc', n, hn1, hn2⟩
      constructor <;> intro x
      · rw [hunf, (ih p q v).1 x, hseed]
      · rw [hunf, (ih p q v).2 x, hseed]
    | some node =>
      have hunf : GlobalDependencyGraph.collectSeedsAndProjects env g (c :: rest) (p, q, v) =
          GlobalDependencyGraph.collectSeedsAndProjects env g rest
            (setAdd p node.projectRoot, q ++ [node.file], setAdd v node.file) := by
        simp only [GlobalDependencyGraph.collectSeedsAndProjects, htg]
      have hseed : ∀ x, IsSeed env g (c :: rest) x ↔
          (x = node.file ∨ IsSeed env g rest x) := by
        intro x
        unfold IsSeed
        constructor
        · rintro ⟨c', hc', n, hn1, hn2⟩
          rcases List.mem_cons.mp hc' with rfl | hc''
          · rw [htg] at hn1
            injection hn1 with h
            subst h
            exact Or.inl hn2.symm
          · exact Or.inr ⟨c', hc'', n, hn1, hn2⟩
        · rintro (rfl | ⟨c', hc', n, hn1, hn2⟩)
          · exact ⟨c, List.mem_cons_self c rest, node, htg, rfl⟩
          · exact ⟨c', List.mem_cons_of_mem c hc', n, hn1, hn2⟩
      constructor <;> intro x
      · rw [hunf,
          (ih (setAdd p node.projectRoot) (q ++ [node.file]) (setAdd v node.file)).1 x,
          hseed]
        constructor
        · rintro (hq | h)
          · rcases List.mem_append.mp hq with h | h
            · exact Or.inl h
            · exact Or.inr (Or.inl (List.mem_singleton.mp h))
          · exact Or.inr (Or.inr h)
        · rintro (h | h | h)
          · exact Or.inl (List.mem_append.mpr (Or.inl h))
          · exact Or.inl (List.mem_append.mpr (Or.inr (List.mem_singleton.mpr h)))
          · exact Or.inr h
      · rw [hunf,
          (ih (setAdd p node.projectRoot) (q ++ [node.file]) (setAdd v node.file)).2 x,
          hseed]
        constructor
        · rintro (hq | h)
          · rcases mem_setAdd.mp hq with h | h
            · exact Or.inl h
            · exact Or.inr (Or.inl h)
          · exact Or.inr (Or.inr h)
        · rintro (h | h | h)
          · exact Or.inl (mem_setAdd.mpr (Or.inl h))
          · exact Or.inl (mem_setAdd.mpr (Or.inr h))
          · exact Or.inr h

/-- C10: `findAffectedFilesInProject` never reports a seed — every file
in the returned set is distinct from every changed file present in the
graph and was reached as a proper importer-ancestor of some seed —
whereas `findAffectedTests` does report a changed file that is itself a
test, as on the cycle fixture. -/
theorem findAffectedFilesInProject_excludes_seeds :
    (∀ (env : PathEnv) (g : GlobalDependencyGraph) (target : String)
        (changedFiles : List String) (x : String),
        x ∈ (GlobalDependencyGraph.findAffectedFilesInProject env g target changedFiles).2 →
          ¬ IsSeed env g.buildGraph changedFiles x ∧
          ∃ s, IsSeed env g.buildGraph changedFiles s ∧
            Relation.TransGen (importerStep g.buildGraph.objects) s x) ∧
    (GlobalDependencyGraph.findAffectedTests envId gCycle ["/w/a.test.ts"]).2 =
      ["/w/a.test.ts"] := by
  constructor
  · intro env g target changedFiles x hx
    have hresult :
        (GlobalDependencyGraph.findAffectedFilesInProject env g target changedFiles).2 =
        GlobalDependencyGraph.bfsAffectedFilesInProject g.buildGraph.objects target
          (GlobalDependencyGraph.collectSeedsAndProjects env g.buildGraph changedFiles
            ([], [], [])).2.1
          (GlobalDependencyGraph.collectSeedsAndProjects env g.buildGraph changedFiles
            ([], [], [])).2.2
          [] := rfl
    rw [hresult] at hx
    have hspec := collectSeedsAndProjects_spec env g.buildGraph changedFiles [] [] []
    refine bfsAffectedFilesInProject_sound target
      (IsSeed env g.buildGraph changedFiles) _ _ _ ?_ ?_ ?_ x hx
    · intro f hf
      refine ⟨f, ?_, Relation.ReflTransGen.refl⟩
      exact ((hspec.1 f).mp hf).resolve_left (fun h => (List.not_mem_nil f) h)
    · intro s hs
      exact (hspec.2 s).mpr (Or.inr hs)
    · intro a ha
      exact absurd ha (List.not_mem_nil a)
  · have hobj : gCycle.buildGraph.objects =
        [{ file := "/w/a.test.ts", projectRoot := "/w",
           importedModules := ["/w/b.ts"], importers := ["/w/b.ts"],
           rawImports := ["./b"], isTest := true },
         { file := "/w/b.ts", projectRoot := "/w",
           importedModules := ["/w/a.test.ts"], importers := ["/w/a.test.ts"],
           rawImports := ["./a"], isTest := false }] := by decide
    have hseeds : GlobalDependencyGraph.collectSeeds envId gCycle.buildGraph
        ["/w/a.test.ts"] ([], []) = (["/w/a.test.ts"], ["/w/a.test.ts"]) := by decide
    have hresult :
        (GlobalDependencyGraph.findAffectedTests envId gCycle ["/w/a.test.ts"]).2 =
        GlobalDependencyGraph.bfsAffectedTests gCycle.buildGraph.objects
          (GlobalDependencyGraph.collectSeeds envId gCycle.buildGraph
            ["/w/a.test.ts"] ([], [])).1
          (GlobalDependencyGraph.collectSeeds envId gCycle.buildGraph
            ["/w/a.test.ts"] ([], [])).2 [] := rfl
    rw [hresult, hobj, hseeds]
    simp [GlobalDependencyGraph.bfsAffectedTests, storeGet,
      GlobalDependencyGraph.enqueueImporters, setAdd, List.find?]

/-- Witness for C10 on the chain fixture: the reported `/w2/a.ts` is not a
seed of the changed set and is a proper importer-ancestor of the seed
`/w2/u.ts`. -/
theorem findAffectedFilesInProject_excludes_seeds_witness :
    ¬ IsSeed envId gChain.buildGraph ["/w2/u.ts"] "/w2/a.ts" ∧
    ∃ s, IsSeed envId gChain.buildGraph ["/w2/u.ts"] s ∧
      Relation.TransGen (importerStep gChain.buildGraph.objects) s "/w2/a.ts" := by
  refine findAffectedFilesInProject_excludes_seeds.1 envId gChain "/w2"
    ["/w2/u.ts"] "/w2/a.ts" ?_
  have hobj : gChain.buildGraph.objects =
      [{ file := "/w2/u.ts", projectRoot := "/w2", importedModules := [],
         importers := ["/w2/a.ts"], rawImports := [], isTest := false },
       { file := "/w2/a.ts", projectRoot := "/w2",
         importedModules := ["/w2/u.ts"], importers := [],
         rawImports := ["./u"], isTest := false }] := by decide
  have hseeds : GlobalDependencyGraph.collectSeedsAndProjects envId gChain.buildGraph
      ["/w2/u.ts"] ([], [], []) = (["/w2"], ["/w2/u.ts"], ["/w2/u.ts"]) := by decide
  have hresult :
      (GlobalDependencyGraph.findAffectedFilesInProject envId gChain "/w2"
        ["/w2/u.ts"]).2 =
      GlobalDependencyGraph.bfsAffectedFilesInProject gChain.buildGraph.objects "/w2"
        (GlobalDependencyGraph.collectSeedsAndProjects envId gChain.buildGraph
          ["/w2/u.ts"] ([], [], [])).2.1
        (GlobalDependencyGraph.collectSeedsAndProjects envId gChain.buildGraph
          ["/w2/u.ts"] ([], [], [])).2.2 [] := rfl
  rw [hresult, hobj, hseeds]
  simp [GlobalDependencyGraph.bfsAffectedFilesInProject, storeGet,
    GlobalDependencyGraph.enqueueCollectImporters, setAdd, List.find?]
end JestGraph
